import Mathlib

/-!
Verification of the `rust-http-playback-proxy` repository against its
natural-language specification.

The Rust sources are shallowly embedded as Lean definitions:

* strings are modelled by Lean `String` with character-based operations
  (the relevant strings — header names, URL components, HTML/CSS text —
  are handled by the program as UTF-8; for the byte-indexed operations of
  Rust (`str::len`, slicing) the model uses character counts, which agree
  with the source on the ASCII data that URLs and headers carry);
* byte buffers (`Vec<u8>`) are modelled by `List Nat`;
* `u64`/`usize` arithmetic is modelled by `Nat` (no claim exercises
  wrap-around), `f64` arithmetic by exact rational arithmetic `Rat`
  with explicit truncation where the source casts to an integer type;
* external libraries (flate2, brotli, encoding_rs, base64, sha1,
  prettyish-html, prettify-js) are universally-quantified function
  parameters, while all logic written in the repository itself is
  translated concretely;
* `HashMap<String, HeaderValue>` is modelled by an association list with
  replace-on-insert semantics (iteration order of the Rust map is
  unspecified, so no claim depends on it).
-/

set_option autoImplicit false

namespace HttpPlaybackProxy

/-! ## Character/string helpers (Rust `str` primitives used by the sources) -/

/-- Build a string from an explicit character list. -/
def ofChars (l : List Char) : String := String.mk l

/-- Character count of a string; models Rust `str::len` on ASCII data. -/
def strLen (s : String) : Nat := s.data.length

/-- First `n` characters; models Rust slicing `&s[..n]` on ASCII data. -/
def strTake (s : String) (n : Nat) : String := ofChars (s.data.take n)

/-- All but the first `n` characters; models Rust `&s[n..]` on ASCII data. -/
def strDrop (s : String) (n : Nat) : String := ofChars (s.data.drop n)

/-- Per-character lowercasing; models Rust `str::to_lowercase` on the ASCII
header names and methods the sources lowercase. -/
def lowerStr (s : String) : String := ofChars (s.data.map Char.toLower)

/-- Split a character list at a separator character.  Mirrors Rust
`str::split(c)`: the result always has at least one (possibly empty) piece. -/
def splitCharList (sep : Char) : List Char → List (List Char)
  | [] => [[]]
  | c :: rest =>
    let r := splitCharList sep rest
    if c = sep then [] :: r
    else
      match r with
      | [] => [[c]]
      | h :: t => (c :: h) :: t

/-- `str::split(c)` as a list of strings. -/
def splitChar (sep : Char) (s : String) : List String :=
  (splitCharList sep s.data).map ofChars

/-- Whitespace test; models Rust `char::is_whitespace` / regex `\s` on the
ASCII whitespace that occurs in the embedded inputs. -/
def isWsChar (c : Char) : Bool :=
  c = ' ' || c = '\t' || c = '\n' || c = '\x0d' || c = '\x0c' || c = '\x0b'

/-- Strip one trailing carriage return, as Rust `str::lines` does per line. -/
def stripTrailCr (l : List Char) : List Char :=
  if l.getLast? = some '\x0d' then l.dropLast else l

/-- Rust `str::lines()` as a list of lines: pieces are terminated by `\n`
(with an optional final unterminated piece), and a `\r` immediately before a
terminating `\n` is stripped. -/
def linesList (l : List Char) : List (List Char) :=
  let pieces := splitCharList '\x0a' l
  match pieces.getLast? with
  | some last =>
    let init := pieces.dropLast.map stripTrailCr
    if last = [] then init else init ++ [last]
  | none => []

/-- Rust `str::lines().count()`. -/
def linesCount (s : String) : Nat := (linesList s.data).length

/-- Rust `str::trim()` (ASCII whitespace model). -/
def trimList (l : List Char) : List Char :=
  ((l.dropWhile isWsChar).reverse.dropWhile isWsChar).reverse

/-- Rust `str::trim()` on strings. -/
def trimStr (s : String) : String := ofChars (trimList s.data)

/-- Rust `str::ends_with(c)` for a single character. -/
def endsWithChar (s : String) (c : Char) : Bool := s.data.getLast? = some c

/-- Substring occurrence on character lists. -/
def listContainsSub (sub : List Char) : List Char → Bool
  | [] => sub.isEmpty
  | x :: xs => sub.isPrefixOf (x :: xs) || listContainsSub sub xs

/-- Rust `str::contains(sub)` (substring test). -/
def containsStr (s sub : String) : Bool := listContainsSub sub.data s.data

/-- Rust `str::starts_with(sub)`. -/
def startsWithStr (s sub : String) : Bool := sub.data.isPrefixOf s.data

/-- Index of the last occurrence of `c`; models Rust `str::rfind(c)`. -/
def rfindIdx (c : Char) : List Char → Option Nat
  | [] => none
  | x :: xs =>
    match rfindIdx c xs with
    | some j => some (j + 1)
    | none => if x = c then some 0 else none

/-! ## Data model (`src/types.rs`)

`Resource` carries, besides the fields of the `Resource` struct in
`src/types.rs`, the two fields `content_type_charset` and `original_charset`
that `src/recording/processor.rs` and `src/playback/transaction.rs` read and
write on resources (the struct definition and its users are out of sync in
the source tree; the embedding takes the union of the fields so that both
files can be translated). -/

/-- `HeaderValue` from `src/types.rs`. -/
inductive HeaderValue where
  | Single (value : String)
  | Multiple (values : List String)
deriving Repr, DecidableEq

/-- `HeaderValue::as_vec`. -/
def HeaderValue.as_vec : HeaderValue → List String
  | .Single s => [s]
  | .Multiple v => v

/-- `HttpHeaders = HashMap<String, HeaderValue>` modelled as an association
list; insertion replaces the binding of an exactly-equal (case-sensitive)
key, as `HashMap::insert` does. -/
abbrev HttpHeaders := List (String × HeaderValue)

/-- `HashMap::insert` (replace the binding of `k`). -/
def headersInsert (h : HttpHeaders) (k : String) (v : HeaderValue) : HttpHeaders :=
  (k, v) :: h.filter (fun p => p.1 ≠ k)

/-- `HashMap::get` (first binding of `k`). -/
def headersGet (h : HttpHeaders) (k : String) : Option HeaderValue :=
  (h.find? (fun p => p.1 == k)).map (fun p => p.2)

/-- Key-membership in a header map. -/
def headersHasKey (h : HttpHeaders) (k : String) : Bool :=
  (h.find? (fun p => p.1 == k)).isSome

/-- `ContentEncodingType` from `src/types.rs`. -/
inductive ContentEncodingType where
  | Gzip | Compress | Deflate | Br | Identity
deriving Repr, DecidableEq

/-- `Resource` from `src/types.rs` (plus the two charset fields used by
`processor.rs` and `transaction.rs`, see above).  `mbps : f64` is modelled
by `Rat`. -/
structure Resource where
  method : String
  url : String
  ttfb_ms : Nat := 0
  download_end_ms : Option Nat := none
  mbps : Option Rat := none
  status_code : Option Nat := none
  error_message : Option String := none
  raw_headers : Option HttpHeaders := none
  content_encoding : Option ContentEncodingType := none
  content_type_mime : Option String := none
  content_charset : Option String := none
  content_type_charset : Option String := none
  original_charset : Option String := none
  content_file_path : Option String := none
  content_utf8 : Option String := none
  content_base64 : Option String := none
  minify : Option Bool := none
deriving Repr, DecidableEq

/-- `DeviceType` from `src/types.rs`. -/
inductive DeviceType where
  | Desktop | Mobile
deriving Repr, DecidableEq

/-- `Inventory` from `src/types.rs`. -/
structure Inventory where
  entry_url : Option String := none
  device_type : Option DeviceType := none
  resources : List Resource := []
deriving Repr, DecidableEq

/-- `BodyChunk` from `src/types.rs`: a piece of body bytes plus its target
emission time (ms, relative to TTFB end). -/
structure BodyChunk where
  chunk : List Nat
  target_time : Nat
deriving Repr, DecidableEq

/-- `Transaction` from `src/types.rs`. -/
structure Transaction where
  method : String
  url : String
  ttfb : Nat
  status_code : Option Nat
  error_message : Option String
  raw_headers : Option HttpHeaders
  chunks : List BodyChunk
  target_close_time : Nat
deriving Repr, DecidableEq

/-! ## Chunking (`src/playback/transaction.rs`, `create_chunks`) -/

/-- `CHUNK_SIZE` from `src/playback/transaction.rs` (64 KiB). -/
def CHUNK_SIZE : Nat := 1024 * 64

/-- `TARGET_MBPS` from `src/playback/transaction.rs`. -/
def TARGET_MBPS : Rat := 1

/-- `u64::MAX`; the saturation value of Rust `f64 as u64` casts. -/
def U64_MAX : Nat := 2 ^ 64 - 1

/-- The `mbps` fallback of `create_chunks`:
`bytes_per_ms = (mbps * 1000.0 * 1000.0) / 8.0 / 1000.0` and
`(total_size as f64 / bytes_per_ms) as u64`.  The `f64` arithmetic is
modelled exactly in `Rat` with the saturating/truncating semantics of the
`as u64` cast (a non-positive rate divides to `+inf` in `f64`, which the
cast saturates to `u64::MAX`). -/
def fallback_duration_ms (mbps : Rat) (total_size : Nat) : Nat :=
  let bytes_per_ms : Rat := mbps * 1000 * 1000 / 8 / 1000
  if bytes_per_ms ≤ 0 then U64_MAX
  else min U64_MAX ((total_size / bytes_per_ms : Rat).floor.toNat)

/-- The `while offset < total_size` loop of `create_chunks`, written as
recursion on the not-yet-chunked suffix of the body.  The loop runs at most
`total_size / CHUNK_SIZE + 1` times (each iteration consumes a full chunk
except the last), so the recursion is paced by a fuel argument instantiated
with that bound; this keeps the definition reducible by the kernel.  The
per-chunk duration
`((chunk_size as f64 / total_size as f64) * transfer_duration_ms as f64) as u64`
is modelled as exact rational arithmetic truncated to a natural number,
i.e. `chunk_size * transfer_duration_ms / total_size` in `Nat`. -/
def create_chunks_go (fuel : Nat) (content : List Nat)
    (total_size transfer_duration_ms current_time : Nat) : List BodyChunk :=
  match fuel with
  | 0 => []
  | fuel + 1 =>
    if content.length = 0 then []
    else
      let chunk_size := min CHUNK_SIZE content.length
      let chunk_duration_ms := chunk_size * transfer_duration_ms / total_size
      { chunk := content.take chunk_size, target_time := current_time } ::
        create_chunks_go fuel (content.drop chunk_size) total_size transfer_duration_ms
          (current_time + chunk_duration_ms)

/-- `create_chunks` from `src/playback/transaction.rs`: split `content` into
64 KiB chunks with proportionally-distributed target times; returns the
chunk list and `target_close_time`. -/
def create_chunks (content : List Nat) (resource : Resource) : List BodyChunk × Nat :=
  let total_size := content.length
  if total_size = 0 then ([], 0)
  else
    let transfer_duration_ms :=
      match resource.download_end_ms with
      | some download_end_ms => download_end_ms - resource.ttfb_ms
      | none => fallback_duration_ms (resource.mbps.getD TARGET_MBPS) total_size
    let transfer_duration_ms := max 1 transfer_duration_ms
    (create_chunks_go (total_size / CHUNK_SIZE + 1) content total_size transfer_duration_ms 0,
     transfer_duration_ms)

/-- The sequence of chunk sizes produced for a body of `len` bytes
(helper for stating facts about `create_chunks`). -/
def chunkSizesGo (fuel len : Nat) : List Nat :=
  match fuel with
  | 0 => []
  | fuel + 1 =>
    if len = 0 then []
    else min CHUNK_SIZE len :: chunkSizesGo fuel (len - min CHUNK_SIZE len)

/-- Prefix sums: `prefixSums [a₀, a₁, …]` is `[0, a₀, a₀+a₁, …]`, one entry
per entry of the input (helper for stating chunk target times). -/
def prefixSums : List Nat → List Nat
  | [] => []
  | a :: rest => 0 :: (prefixSums rest).map (fun x => a + x)

theorem prefixSums_length (l : List Nat) : (prefixSums l).length = l.length := by
  induction l with
  | nil => rfl
  | cons a rest ih => simp [prefixSums, ih]

theorem prefixSums_get? (l : List Nat) (i : Nat) (h : i < l.length) :
    (prefixSums l).get? i = some ((l.take i).sum) := by
  induction l generalizing i with
  | nil => simp at h
  | cons a rest ih =>
    cases i with
    | zero => simp [prefixSums]
    | succ j =>
      have hj : j < rest.length := by simpa using h
      simp only [prefixSums, List.get?_cons_succ, List.get?_map]
      rw [ih j hj]
      simp [List.take_succ_cons]

theorem create_chunks_go_sizes (fuel : Nat) :
    ∀ (content : List Nat) (t T cur : Nat), content.length ≤ fuel * CHUNK_SIZE →
      (create_chunks_go fuel content t T cur).map (fun c => c.chunk.length)
        = chunkSizesGo fuel content.length := by
  induction fuel with
  | zero => intro content t T cur hf; simp [create_chunks_go, chunkSizesGo]
  | succ fuel ih =>
    intro content t T cur hf
    by_cases h0 : content.length = 0
    · simp [create_chunks_go, chunkSizesGo, h0]
    · have hCS : CHUNK_SIZE = 65536 := by norm_num [CHUNK_SIZE]
      have hdrop : (content.drop (min CHUNK_SIZE content.length)).length ≤ fuel * CHUNK_SIZE := by
        simp only [List.length_drop]
        rw [hCS] at hf ⊢
        omega
      simp only [create_chunks_go, chunkSizesGo]
      rw [if_neg h0, if_neg h0]
      simp only [List.map_cons]
      rw [ih _ _ _ _ hdrop]
      simp only [List.length_take, List.length_drop]
      congr 1
      omega

theorem create_chunks_go_flatten (fuel : Nat) :
    ∀ (content : List Nat) (t T cur : Nat), content.length ≤ fuel * CHUNK_SIZE →
      ((create_chunks_go fuel content t T cur).map (fun c => c.chunk)).flatten = content := by
  induction fuel with
  | zero =>
    intro content t T cur hf
    have : content = [] := List.length_eq_zero.mp (by simpa using hf)
    simp [create_chunks_go, this]
  | succ fuel ih =>
    intro content t T cur hf
    by_cases h0 : content.length = 0
    · have : content = [] := List.length_eq_zero.mp h0
      simp [create_chunks_go, this]
    · have hCS : CHUNK_SIZE = 65536 := by norm_num [CHUNK_SIZE]
      have hdrop : (content.drop (min CHUNK_SIZE content.length)).length ≤ fuel * CHUNK_SIZE := by
        simp only [List.length_drop]
        rw [hCS] at hf ⊢
        omega
      simp only [create_chunks_go, if_neg h0, List.map_cons, List.flatten_cons]
      rw [ih _ _ _ _ hdrop]
      exact List.take_append_drop _ content

theorem create_chunks_go_targets (fuel : Nat) :
    ∀ (content : List Nat) (t T cur : Nat), content.length ≤ fuel * CHUNK_SIZE →
      (create_chunks_go fuel content t T cur).map (fun c => c.target_time)
        = (prefixSums ((chunkSizesGo fuel content.length).map (fun s => s * T / t))).map
            (fun x => cur + x) := by
  induction fuel with
  | zero => intro content t T cur hf; simp [create_chunks_go, chunkSizesGo, prefixSums]
  | succ fuel ih =>
    intro content t T cur hf
    by_cases h0 : content.length = 0
    · simp [create_chunks_go, chunkSizesGo, h0, prefixSums]
    · have hCS : CHUNK_SIZE = 65536 := by norm_num [CHUNK_SIZE]
      have hdrop : (content.drop (min CHUNK_SIZE content.length)).length ≤ fuel * CHUNK_SIZE := by
        simp only [List.length_drop]
        rw [hCS] at hf ⊢
        omega
      simp only [create_chunks_go, chunkSizesGo]
      rw [if_neg h0, if_neg h0]
      simp only [List.map_cons, prefixSums, List.map_map, Nat.add_zero]
      congr 1
      rw [ih _ _ _ _ hdrop]
      simp only [List.length_drop]
      apply List.map_congr_left
      intro x hx
      simp only [Function.comp_apply]
      omega

theorem chunkSizesGo_sum (fuel : Nat) :
    ∀ len : Nat, len ≤ fuel * CHUNK_SIZE → (chunkSizesGo fuel len).sum = len := by
  induction fuel with
  | zero =>
    intro len hf
    have h0 : len = 0 := by simpa using hf
    simp [chunkSizesGo, h0]
  | succ fuel ih =>
    intro len hf
    by_cases h0 : len = 0
    · simp [chunkSizesGo, h0]
    · have hpos : 0 < min CHUNK_SIZE len := by
        have : 0 < CHUNK_SIZE := by norm_num [CHUNK_SIZE]
        exact lt_min this (Nat.pos_of_ne_zero h0)
      have hCS : CHUNK_SIZE = 65536 := by norm_num [CHUNK_SIZE]
      have hrec : len - min CHUNK_SIZE len ≤ fuel * CHUNK_SIZE := by
        rw [hCS] at hf ⊢
        omega
      simp only [chunkSizesGo, if_neg h0, List.sum_cons]
      rw [ih _ hrec]
      have := Nat.min_le_right CHUNK_SIZE len
      omega

theorem chunkSizesGo_bounds (fuel : Nat) :
    ∀ len : Nat, ∀ s ∈ chunkSizesGo fuel len, 1 ≤ s ∧ s ≤ CHUNK_SIZE := by
  induction fuel with
  | zero => intro len s hs; simp [chunkSizesGo] at hs
  | succ fuel ih =>
    intro len s hs
    by_cases h0 : len = 0
    · simp [chunkSizesGo, h0] at hs
    · simp only [chunkSizesGo, if_neg h0, List.mem_cons] at hs
      rcases hs with rfl | hs
      · constructor
        · have : 0 < CHUNK_SIZE := by norm_num [CHUNK_SIZE]
          exact lt_min this (Nat.pos_of_ne_zero h0)
        · exact Nat.min_le_left _ _
      · exact ih _ s hs

theorem chunkSizesGo_full (fuel : Nat) :
    ∀ len i : Nat, i + 1 < (chunkSizesGo fuel len).length →
      (chunkSizesGo fuel len).get? i = some CHUNK_SIZE := by
  induction fuel with
  | zero => intro len i h; simp [chunkSizesGo] at h
  | succ fuel ih =>
    intro len i h
    by_cases h0 : len = 0
    · simp [chunkSizesGo, h0] at h
    · rw [chunkSizesGo, if_neg h0] at h ⊢
      cases i with
      | zero =>
        -- the tail is nonempty, so at least CHUNK_SIZE bytes were left over
        simp only [List.length_cons] at h
        have htail : chunkSizesGo fuel (len - min CHUNK_SIZE len) ≠ [] := by
          intro hnil
          rw [hnil] at h
          simp at h
        have hlenpos : 0 < len - min CHUNK_SIZE len := by
          by_contra hz
          push_neg at hz
          have hz0 : len - min CHUNK_SIZE len = 0 := Nat.le_zero.mp hz
          cases fuel with
          | zero => exact htail rfl
          | succ fuel => simp [chunkSizesGo, hz0] at htail
        have : min CHUNK_SIZE len = CHUNK_SIZE := by omega
        simp [this]
      | succ j =>
        have hj : j + 1 < (chunkSizesGo fuel (len - min CHUNK_SIZE len)).length := by
          simpa using h
        simpa using ih _ j hj

/-- `a / n + b / n ≤ (a + b) / n` on naturals. -/
theorem div_add_div_le_add_div (a b n : Nat) : a / n + b / n ≤ (a + b) / n := by
  rcases Nat.eq_zero_or_pos n with rfl | hn
  · simp
  · rw [Nat.le_div_iff_mul_le hn, Nat.add_mul]
    exact Nat.add_le_add (Nat.div_mul_le_self a n) (Nat.div_mul_le_self b n)

theorem sum_map_div_le (l : List Nat) (T t : Nat) :
    (l.map (fun s => s * T / t)).sum ≤ l.sum * T / t := by
  induction l with
  | nil => simp
  | cons a rest ih =>
    simp only [List.map_cons, List.sum_cons]
    calc a * T / t + (rest.map (fun s => s * T / t)).sum
        ≤ a * T / t + rest.sum * T / t := Nat.add_le_add_left ih _
      _ ≤ (a * T + rest.sum * T) / t := div_add_div_le_add_div _ _ _
      _ = (a + rest.sum) * T / t := by ring_nf

/-- Every body fits in `len / CHUNK_SIZE + 1` chunks. -/
theorem length_le_fuel_mul (n : Nat) : n ≤ (n / CHUNK_SIZE + 1) * CHUNK_SIZE := by
  have h1 := Nat.div_add_mod n CHUNK_SIZE
  have h2 : n % CHUNK_SIZE < CHUNK_SIZE := Nat.mod_lt _ (by norm_num [CHUNK_SIZE])
  have hCS : CHUNK_SIZE = 65536 := by norm_num [CHUNK_SIZE]
  rw [hCS] at h1 h2 ⊢
  omega

theorem create_chunks_sizes (content : List Nat) (r : Resource) :
    (create_chunks content r).1.map (fun c => c.chunk.length)
      = chunkSizesGo (content.length / CHUNK_SIZE + 1) content.length := by
  by_cases h0 : content.length = 0
  · simp [create_chunks, h0, chunkSizesGo]
  · simp only [create_chunks, if_neg h0]
    exact create_chunks_go_sizes _ _ _ _ _ (length_le_fuel_mul _)

theorem create_chunks_flatten (content : List Nat) (r : Resource) :
    ((create_chunks content r).1.map (fun c => c.chunk)).flatten = content := by
  by_cases h0 : content.length = 0
  · have : content = [] := List.length_eq_zero.mp h0
    simp [create_chunks, this]
  · simp only [create_chunks, if_neg h0]
    exact create_chunks_go_flatten _ _ _ _ _ (length_le_fuel_mul _)

theorem create_chunks_targets (content : List Nat) (r : Resource)
    (h0 : content.length ≠ 0) :
    (create_chunks content r).1.map (fun c => c.target_time)
      = prefixSums ((chunkSizesGo (content.length / CHUNK_SIZE + 1) content.length).map
          (fun s => s * (create_chunks content r).2 / content.length)) := by
  simp only [create_chunks, if_neg h0]
  rw [create_chunks_go_targets _ _ _ _ _ (length_le_fuel_mul _)]
  simp

theorem create_chunks_close_eq (content : List Nat) (r : Resource) (d : Nat)
    (h0 : content.length ≠ 0) (hd : r.download_end_ms = some d) :
    (create_chunks content r).2 = max 1 (d - r.ttfb_ms) := by
  have hne : content ≠ [] := fun h => h0 (by simp [h])
  simp [create_chunks, if_neg h0, hd, hne]

theorem create_chunks_length (content : List Nat) (r : Resource) :
    (create_chunks content r).1.length = (chunkSizesGo (content.length / CHUNK_SIZE + 1) content.length).length := by
  have h := create_chunks_sizes content r
  have := congrArg List.length h
  simpa using this

/-- Claim C1 (amended).  For a non-empty wire body and a recorded transfer
duration `T = max 1 (downloadEndMs − ttfbMs)`, `create_chunks` splits the
body into consecutive chunks of `CHUNK_SIZE = 64 KiB` (all full except
possibly the last, which is shorter but non-empty) whose concatenation is
the body; the first chunk has `targetTimeMs = 0`; chunk `i`'s
`targetTimeMs` equals `Σ_{j<i} ⌊(size[j] · T) / totalSize⌋` — the sum of
the *individually truncated* per-chunk durations, not the truncation of the
exact proportional sum claimed by the spec; target times are monotone,
bounded by `targetCloseMs`, and `targetCloseMs = T` (so `T` with a floor of
1 ms). -/
theorem c1_create_chunks_schedule (content : List Nat) (r : Resource) (d : Nat)
    (hne : content ≠ []) (hd : r.download_end_ms = some d) :
    ((create_chunks content r).2 = max 1 (d - r.ttfb_ms)) ∧
    (((create_chunks content r).1.map (fun c => c.chunk)).flatten = content) ∧
    (∀ c ∈ (create_chunks content r).1, c.chunk.length ≤ CHUNK_SIZE ∧ c.chunk ≠ []) ∧
    (∀ i, i + 1 < (create_chunks content r).1.length →
        ((create_chunks content r).1.map (fun c => c.chunk.length)).get? i = some CHUNK_SIZE) ∧
    (((create_chunks content r).1.map (fun c => c.target_time)).head? = some 0) ∧
    (∀ i, i < (create_chunks content r).1.length →
        ((create_chunks content r).1.map (fun c => c.target_time)).get? i
          = some ((((create_chunks content r).1.take i).map
              (fun c => c.chunk.length * (create_chunks content r).2 / content.length)).sum)) ∧
    (∀ i x y, ((create_chunks content r).1.map (fun c => c.target_time)).get? i = some x →
        ((create_chunks content r).1.map (fun c => c.target_time)).get? (i + 1) = some y →
        x ≤ y) ∧
    (∀ c ∈ (create_chunks content r).1, c.target_time ≤ (create_chunks content r).2) := by
  have h0 : content.length ≠ 0 := by
    simpa [List.length_eq_zero] using hne
  have hsizes := create_chunks_sizes content r
  have htargets := create_chunks_targets content r h0
  have hlen := create_chunks_length content r
  -- the general index formula for target times
  have hformula : ∀ i, i < (create_chunks content r).1.length →
      ((create_chunks content r).1.map (fun c => c.target_time)).get? i
        = some ((((create_chunks content r).1.take i).map
            (fun c => c.chunk.length * (create_chunks content r).2 / content.length)).sum) := by
    intro i hi
    rw [htargets]
    have hiL : i < ((chunkSizesGo (content.length / CHUNK_SIZE + 1) content.length).map
        (fun s => s * (create_chunks content r).2 / content.length)).length := by
      simpa [← hlen] using hi
    rw [prefixSums_get? _ _ hiL]
    congr 1
    have : (create_chunks content r).1.map
        (fun c => c.chunk.length * (create_chunks content r).2 / content.length)
        = (chunkSizesGo (content.length / CHUNK_SIZE + 1) content.length).map
            (fun s => s * (create_chunks content r).2 / content.length) := by
      rw [← hsizes, List.map_map]
      rfl
    rw [← this, List.map_take]
  refine ⟨create_chunks_close_eq content r d h0 hd, create_chunks_flatten content r, ?_, ?_, ?_,
    hformula, ?_, ?_⟩
  · -- per-chunk size bounds
    intro c hc
    have hmem : c.chunk.length ∈ chunkSizesGo (content.length / CHUNK_SIZE + 1) content.length := by
      rw [← hsizes]
      exact List.mem_map_of_mem _ hc
    have hb := chunkSizesGo_bounds _ content.length _ hmem
    exact ⟨hb.2, by
      intro hnil
      have := hb.1
      rw [hnil] at this
      simp at this⟩
  · -- all chunks except the last are exactly CHUNK_SIZE
    intro i hi
    rw [hsizes]
    exact chunkSizesGo_full _ content.length i (by simpa [← hlen] using hi)
  · -- the first chunk is emitted at relative time 0
    obtain ⟨n, hn⟩ := Nat.exists_eq_succ_of_ne_zero h0
    rw [htargets, hn]
    simp [chunkSizesGo, prefixSums]
  · -- monotone target times
    intro i x y hx hy
    have hi1 : i + 1 < (create_chunks content r).1.length := by
      by_contra hcon
      push_neg at hcon
      have : ((create_chunks content r).1.map (fun c => c.target_time)).get? (i + 1) = none :=
        List.get?_eq_none.mpr (by simpa using hcon)
      rw [this] at hy
      exact Option.noConfusion hy
    have hi : i < (create_chunks content r).1.length := Nat.lt_of_succ_lt hi1
    rw [hformula i hi] at hx
    rw [hformula (i + 1) hi1] at hy
    obtain rfl : _ = x := (Option.some_injective _ hx)
    obtain rfl : _ = y := (Option.some_injective _ hy)
    rw [List.take_succ, List.map_append, List.sum_append]
    exact Nat.le_add_right _ _
  · -- every target time is at most target_close_time
    intro c hc
    obtain ⟨i, hgi⟩ := List.get?_of_mem hc
    obtain ⟨hi, -⟩ := List.get?_eq_some.mp hgi
    have hmap : ((create_chunks content r).1.map (fun c => c.target_time)).get? i
        = some c.target_time := by
      rw [List.get?_map, hgi]
      rfl
    rw [hformula i hi] at hmap
    obtain heq : _ = c.target_time := Option.some_injective _ hmap
    rw [← heq]
    -- the prefix sum is bounded by the total sum, which is at most T
    have hsplit : (create_chunks content r).1 =
        (create_chunks content r).1.take i ++ (create_chunks content r).1.drop i :=
      (List.take_append_drop _ _).symm
    have hle1 : (((create_chunks content r).1.take i).map
        (fun c => c.chunk.length * (create_chunks content r).2 / content.length)).sum
        ≤ (((create_chunks content r).1).map
            (fun c => c.chunk.length * (create_chunks content r).2 / content.length)).sum := by
      conv_rhs => rw [hsplit]
      rw [List.map_append, List.sum_append]
      exact Nat.le_add_right _ _
    have hmapeq : ((create_chunks content r).1).map
        (fun c => c.chunk.length * (create_chunks content r).2 / content.length)
        = (chunkSizesGo (content.length / CHUNK_SIZE + 1) content.length).map
            (fun s => s * (create_chunks content r).2 / content.length) := by
      rw [← hsizes, List.map_map]
      rfl
    have hle2 : (((create_chunks content r).1).map
        (fun c => c.chunk.length * (create_chunks content r).2 / content.length)).sum
        ≤ (create_chunks content r).2 := by
      rw [hmapeq]
      calc ((chunkSizesGo (content.length / CHUNK_SIZE + 1) content.length).map
              (fun s => s * (create_chunks content r).2 / content.length)).sum
          ≤ (chunkSizesGo (content.length / CHUNK_SIZE + 1) content.length).sum * (create_chunks content r).2
              / content.length := sum_map_div_le _ _ _
        _ = content.length * (create_chunks content r).2 / content.length := by
            rw [chunkSizesGo_sum _ content.length (length_le_fuel_mul _)]
        _ = (create_chunks content r).2 := Nat.mul_div_cancel_left _ (Nat.pos_of_ne_zero h0)
    exact le_trans hle1 hle2

/-- Concrete resource for the C1 witness: 2 ms TTFB, download end at 10 ms. -/
def c1WitnessRes : Resource :=
  { method := "GET", url := "https://example.com/a", ttfb_ms := 2, download_end_ms := some 10 }

/-- Witness for C1 (amended): the schedule theorem applied to a 3-byte body
with transfer duration 8 ms (the close time equals `max 1 (10 − 2)`). -/
theorem c1_create_chunks_schedule_witness :
    (([1, 2, 3] : List Nat) ≠ [] ∧ c1WitnessRes.download_end_ms = some 10) ∧
    (create_chunks [1, 2, 3] c1WitnessRes).2 = max 1 (10 - c1WitnessRes.ttfb_ms) :=
  ⟨⟨by decide, rfl⟩, (c1_create_chunks_schedule [1, 2, 3] c1WitnessRes 10 (by decide) rfl).1⟩

/-- Concrete resource for the C1 counterexample: body transferred in
`T = downloadEndMs − ttfbMs = 5` ms. -/
def c1CexRes : Resource :=
  { method := "GET", url := "https://example.com/big", ttfb_ms := 0, download_end_ms := some 5 }

/-- Counterexample to C1 as stated.  For a 196 607-byte body (chunks of
65 536, 65 536 and 65 535 bytes) and recorded transfer duration `T = 5` ms,
the code assigns chunk 2 the target time
`⌊65536·5/196607⌋ + ⌊65536·5/196607⌋ = 1 + 1 = 2`, while the spec formula
`targetTime[2] = Σ_{j<2} (size[j]/totalSize) · T = 655360/196607 ≈ 3.33`
is not 2 under any reading: its exact rational value differs from 2, and its
integer truncation is 3. -/
theorem c1_create_chunks_counterexample :
    ((create_chunks (List.replicate 196607 0) c1CexRes).1.map (fun c => c.target_time)).get? 2
        = some 2
      ∧ ((65536 + 65536) * 5 / 196607 : Nat) = 3
      ∧ ((65536 + 65536 : Rat) / 196607 * 5 ≠ 2) := by
  refine ⟨?_, by norm_num, by norm_num⟩
  have h0 : (List.replicate 196607 (0 : Nat)).length ≠ 0 := by
    rw [List.length_replicate]
    norm_num
  have ht := create_chunks_targets (List.replicate 196607 0) c1CexRes h0
  have hclose := create_chunks_close_eq (List.replicate 196607 0) c1CexRes 5 h0 rfl
  rw [ht, hclose]
  simp only [List.length_replicate, c1CexRes]
  decide

/-! ## Playback conversion pipeline (`src/playback/transaction.rs`) -/

/-- External codecs used by the playback pipeline (base64, encoding_rs,
flate2, brotli): parameters of the embedding, universally quantified in the
theorems.  `lossyDecodeUtf8` models `String::from_utf8_lossy`,
`strictDecodeUtf8` models `std::str::from_utf8` (`none` = `Err`),
`encodingForLabel` models `Encoding::for_label` returning the canonical
encoding name, `encodeToCharset` models `Encoding::encode`. -/
structure PlaybackCodecs where
  b64decode : String → Option (List Nat)
  lossyDecodeUtf8 : List Nat → String
  encodeUtf8 : String → List Nat
  strictDecodeUtf8 : List Nat → Option String
  encodingForLabel : String → Option String
  encodeToCharset : String → String → List Nat
  gzipCompress : List Nat → List Nat
  deflateCompress : List Nat → List Nat
  brotliCompress : List Nat → List Nat

/-- Simple ASCII/identity instantiation of the external codecs, used by the
concrete witnesses: a byte is a character code and the compressors are the
identity. -/
def asciiCodecs : PlaybackCodecs where
  b64decode := fun _ => none
  lossyDecodeUtf8 := fun l => ofChars (l.map Char.ofNat)
  encodeUtf8 := fun s => s.data.map Char.toNat
  strictDecodeUtf8 := fun l => some (ofChars (l.map Char.ofNat))
  encodingForLabel := fun label => some label
  encodeToCharset := fun _ s => s.data.map Char.toNat
  gzipCompress := id
  deflateCompress := id
  brotliCompress := id

/-- The `Some("text/html")` branch of `minify_content`: one pass over the
characters with an `in_tag` and a `prev_was_space` flag, collapsing runs of
whitespace outside tags to a single space and keeping whitespace inside
tags. -/
def minify_html_go : List Char → Bool → Bool → List Char
  | [], _, _ => []
  | ch :: rest, in_tag, prev_was_space =>
    if ch = '<' then ch :: minify_html_go rest true false
    else if ch = '>' then ch :: minify_html_go rest false false
    else if ch = '\n' || ch = '\x0d' || ch = '\t' || ch = ' ' then
      if !in_tag && !prev_was_space then ' ' :: minify_html_go rest in_tag true
      else if in_tag then ch :: minify_html_go rest in_tag prev_was_space
      else minify_html_go rest in_tag prev_was_space
    else ch :: minify_html_go rest in_tag false

/-- The text-level minification of `minify_content` from
`src/playback/transaction.rs`: HTML collapses whitespace outside tags;
CSS joins trimmed non-empty lines; JavaScript joins trimmed non-empty lines
that do not start with `//`; every other MIME type is returned unchanged. -/
def minify_text (content_str : String) (mime_type : Option String) : String :=
  match mime_type with
  | some "text/html" => ofChars (minify_html_go content_str.data false false)
  | some "text/css" =>
    ofChars ((((linesList content_str.data).map trimList).filter
      (fun line => !line.isEmpty)).flatten)
  | some "application/javascript" | some "text/javascript" =>
    ofChars ((((linesList content_str.data).map trimList).filter
      (fun line => !line.isEmpty && !("//".data.isPrefixOf line))).flatten)
  | _ => content_str

/-- `minify_content` from `src/playback/transaction.rs`:
`String::from_utf8_lossy`, the text-level minification, `String::into_bytes`. -/
def minify_content (c : PlaybackCodecs) (content : List Nat) (mime_type : Option String) :
    List Nat :=
  c.encodeUtf8 (minify_text (c.lossyDecodeUtf8 content) mime_type)

/-- `compress_content` from `src/playback/transaction.rs`; `Identity` and
`Compress` fall through to the body unchanged. -/
def compress_content (c : PlaybackCodecs) (content : List Nat)
    (encoding : ContentEncodingType) : List Nat :=
  match encoding with
  | .Gzip => c.gzipCompress content
  | .Deflate => c.deflateCompress content
  | .Br => c.brotliCompress content
  | _ => content

/-- `re_encode_to_charset` from `src/playback/transaction.rs`; `none` models
`Err` (invalid UTF-8 stored content or unknown charset label), and a UTF-8
target returns the content unchanged. -/
def re_encode_to_charset (c : PlaybackCodecs) (content : List Nat) (charset_name : String) :
    Option (List Nat) :=
  match c.strictDecodeUtf8 content with
  | none => none
  | some utf8_str =>
    match c.encodingForLabel charset_name with
    | none => none
    | some encoding =>
      if encoding = "UTF-8" then some content
      else some (c.encodeToCharset encoding utf8_str)

/-- The body-loading step of `convert_resource_to_transaction`
(`src/playback/transaction.rs`, lines 34–55).  `fs` models the file tree as
a partial map from paths to contents (`FileSystem::exists` is
`(fs p).isSome` and a successful `read` returns its value); `PathBuf::join`
on the relative content path is string concatenation with `/`.
`Except.error` models a `?`-propagated error (base64 decode failure),
`Except.ok none` models the `return Ok(None)` branches. -/
def load_transaction_content (c : PlaybackCodecs) (fs : String → Option (List Nat))
    (resource : Resource) (inventory_dir : String) : Except Unit (Option (List Nat)) :=
  let fromInline : Except Unit (Option (List Nat)) :=
    match resource.content_base64 with
    | some base64_content =>
      match c.b64decode base64_content with
      | some bytes => .ok (some bytes)
      | none => .error ()
    | none =>
      match resource.content_utf8 with
      | some utf8_content => .ok (some (c.encodeUtf8 utf8_content))
      | none => .ok none
  match resource.content_file_path with
  | some file_path =>
    match fs (inventory_dir ++ "/" ++ file_path) with
    | some bytes => .ok (some bytes)
    | none => fromInline
  | none => fromInline

/-- The `processed_content` local of `convert_resource_to_transaction`:
minify the stored content when `minify` is set. -/
def playback_processed_content (c : PlaybackCodecs) (resource : Resource)
    (content : List Nat) : List Nat :=
  if resource.minify.getD false then minify_content c content resource.content_type_mime
  else content

/-- The re-encoding step of `convert_resource_to_transaction`: re-encode to
`original_charset` when it is set (`Except.error` models a `?`-propagated
re-encoding failure). -/
def playback_reencoded_content (c : PlaybackCodecs) (resource : Resource)
    (bytes : List Nat) : Except Unit (List Nat) :=
  match resource.original_charset with
  | some original_charset =>
    match re_encode_to_charset c bytes original_charset with
    | some reencoded => .ok reencoded
    | none => .error ()
  | none => .ok bytes

/-- The `final_content` local of `convert_resource_to_transaction`: compress
when `content_encoding` is set. -/
def playback_final_content (c : PlaybackCodecs) (resource : Resource)
    (bytes : List Nat) : List Nat :=
  match resource.content_encoding with
  | some encoding => compress_content c bytes encoding
  | none => bytes

/-- The header map of the built transaction: the resource's `rawHeaders`
with `content-length` set to the final body length and `content-type`
rebuilt from the MIME type and the known charset (`original_charset` first,
else `content_type_charset`). -/
def transaction_headers (resource : Resource) (final_len : Nat) : HttpHeaders :=
  let headers := resource.raw_headers.getD []
  let headers := headersInsert headers "content-length"
    (HeaderValue.Single (toString final_len))
  match resource.content_type_mime with
  | some mime_type =>
    let charset_to_use :=
      match resource.original_charset with
      | some cs => some cs
      | none => resource.content_type_charset
    let content_type_value :=
      match charset_to_use with
      | some charset => mime_type ++ "; charset=" ++ charset
      | none => mime_type
    headersInsert headers "content-type" (HeaderValue.Single content_type_value)
  | none => headers

/-- `convert_resource_to_transaction` from `src/playback/transaction.rs`:
load the stored content, minify it when `minify` is set, re-encode it when
`original_charset` is set, re-compress it when `content_encoding` is set,
chunk it, and build the transaction headers. -/
def convert_resource_to_transaction (c : PlaybackCodecs) (fs : String → Option (List Nat))
    (resource : Resource) (inventory_dir : String) : Except Unit (Option Transaction) :=
  match load_transaction_content c fs resource inventory_dir with
  | .error e => .error e
  | .ok none => .ok none
  | .ok (some content) =>
    match playback_reencoded_content c resource
        (playback_processed_content c resource content) with
    | .error e => .error e
    | .ok processed_content =>
      let final_content := playback_final_content c resource processed_content
      let chunks_close := create_chunks final_content resource
      .ok (some
        { method := resource.method
          url := resource.url
          ttfb := resource.ttfb_ms
          status_code := resource.status_code
          error_message := resource.error_message
          raw_headers := some (transaction_headers resource final_content.length)
          chunks := chunks_close.1
          target_close_time := chunks_close.2 })

/-- Inversion of a successful conversion: the produced transaction is built
from the loaded content by minify → re-encode → compress → chunk. -/
theorem convert_ok_some_inv (c : PlaybackCodecs) (fs : String → Option (List Nat))
    (resource : Resource) (inventory_dir : String) (tx : Transaction)
    (h : convert_resource_to_transaction c fs resource inventory_dir = .ok (some tx)) :
    ∃ content processed_content,
      load_transaction_content c fs resource inventory_dir = .ok (some content) ∧
      playback_reencoded_content c resource
          (playback_processed_content c resource content) = .ok processed_content ∧
      tx = { method := resource.method
             url := resource.url
             ttfb := resource.ttfb_ms
             status_code := resource.status_code
             error_message := resource.error_message
             raw_headers := some (transaction_headers resource
               (playback_final_content c resource processed_content).length)
             chunks := (create_chunks (playback_final_content c resource processed_content)
               resource).1
             target_close_time := (create_chunks
               (playback_final_content c resource processed_content) resource).2 } := by
  unfold convert_resource_to_transaction at h
  split at h
  · exact Except.noConfusion h
  · exact Option.noConfusion (Except.ok.inj h)
  · rename_i content heq
    split at h
    · exact Except.noConfusion h
    · rename_i processed_content hre
      exact ⟨content, processed_content, heq, hre, (Option.some.inj (Except.ok.inj h)).symm⟩

/-- `convert_resources_to_transactions` from `src/playback/transaction.rs`:
convert each resource in inventory order, keeping the `Some` results. -/
def convert_resources_to_transactions (c : PlaybackCodecs) (fs : String → Option (List Nat))
    (inventory_dir : String) : List Resource → Except Unit (List Transaction)
  | [] => .ok []
  | resource :: rest =>
    match convert_resource_to_transaction c fs resource inventory_dir with
    | .error e => .error e
    | .ok none => convert_resources_to_transactions c fs inventory_dir rest
    | .ok (some t) =>
      match convert_resources_to_transactions c fs inventory_dir rest with
      | .error e => .error e
      | .ok ts => .ok (t :: ts)

/-! ## Playback serving (`src/playback/proxy.rs`) -/

/-- The header skip list of `serve_transaction` (`src/playback/proxy.rs`,
lines 302–313), applied to the lowercased key.  Note that `content-length`
itself is in the list. -/
def serve_skip_header (key_lower : String) : Bool :=
  key_lower = "transfer-encoding" || key_lower = "content-length" ||
  key_lower = "connection" || key_lower = "keep-alive" || key_lower = "upgrade" ||
  key_lower = "te" || key_lower = "trailer" || key_lower = "proxy-connection" ||
  key_lower = "proxy-authorization" || key_lower = "proxy-authenticate" ||
  key_lower = "host"

/-- An emitted playback response: status, materialized headers, body chunks. -/
structure PlaybackResponse where
  status : Nat
  headers : List (String × String)
  chunks : List BodyChunk
deriving Repr, DecidableEq

/-- The header-materialization loop of `serve_transaction`: skip the headers
in the skip list, validate the header name (`HeaderName::from_bytes`,
modelled by `nameValid`), and add every value of the entry that parses as a
header value (`HeaderValue::from_str`, modelled by `valueValid`). -/
def serve_headers (nameValid valueValid : String → Bool) (headers : HttpHeaders) :
    List (String × String) :=
  headers.flatMap (fun kv =>
    if serve_skip_header (lowerStr kv.1) then []
    else if nameValid kv.1 then
      (kv.2.as_vec.filter valueValid).map (fun v => (kv.1, v))
    else [])

/-- `serve_transaction` from `src/playback/proxy.rs`: a transaction with an
`error_message` yields a bare 500 response; otherwise the response carries
the recorded status (default 200), the sanitized headers and the timed
chunks. -/
def serve_transaction (nameValid valueValid : String → Bool) (t : Transaction) :
    PlaybackResponse :=
  match t.error_message with
  | some _ => { status := 500, headers := [], chunks := [] }
  | none =>
    { status := t.status_code.getD 200
      headers := serve_headers nameValid valueValid (t.raw_headers.getD [])
      chunks := t.chunks }

/-- The components `hyper::Uri` exposes of a parsed transaction URL. -/
structure PUri where
  path : String
  query : Option String
  authority : Option String
deriving Repr, DecidableEq

/-- An incoming playback request as `handle_playback_request` sees it:
method, path, query, and `request_host` (the `Host` header if present, else
the URI authority). -/
structure PlaybackRequest where
  method : String
  path : String
  query : Option String
  host : Option String
deriving Repr, DecidableEq

/-- The matching predicate of `handle_playback_request`
(`src/playback/proxy.rs`, lines 182–211): the method must be equal, the
transaction URL must parse (`parseUri` models `str::parse::<hyper::Uri>`),
hosts must match when both sides have one (otherwise the host check falls
through), and path and query must be equal. -/
def tx_matches (parseUri : String → Option PUri) (req : PlaybackRequest) (t : Transaction) :
    Bool :=
  if t.method ≠ req.method then false
  else
    match parseUri t.url with
    | some transaction_uri =>
      let host_matches :=
        match req.host, transaction_uri.authority with
        | some req_h, some t_h => req_h == t_h
        | _, _ => true
      host_matches && transaction_uri.path == req.path && transaction_uri.query == req.query
    | none => false

/-- `handle_playback_request` from `src/playback/proxy.rs`: serve the first
matching transaction, else answer 404. -/
def handle_playback_request (parseUri : String → Option PUri)
    (nameValid valueValid : String → Bool) (req : PlaybackRequest)
    (transactions : List Transaction) : PlaybackResponse :=
  match transactions.find? (tx_matches parseUri req) with
  | some t => serve_transaction nameValid valueValid t
  | none => { status := 404, headers := [], chunks := [] }

/-! ## Header map lemmas -/

theorem headersGet_insert_self (h : HttpHeaders) (k : String) (v : HeaderValue) :
    headersGet (headersInsert h k v) k = some v := by
  simp [headersGet, headersInsert]

theorem headersGet_insert_of_ne (h : HttpHeaders) (k k2 : String) (v : HeaderValue)
    (hne : k2 ≠ k) : headersGet (headersInsert h k v) k2 = headersGet h k2 := by
  simp only [headersGet, headersInsert]
  rw [List.find?_cons_of_neg _ (by simp; exact fun hc => hne hc.symm)]
  induction h with
  | nil => simp
  | cons p rest ih =>
    rcases eq_or_ne p.1 k with hpk | hpk
    · have hp2 : p.1 ≠ k2 := fun hc => hne (hc.symm.trans hpk)
      rw [List.filter_cons_of_neg (by simp [hpk]),
          List.find?_cons_of_neg _ (by simp [hp2])]
      exact ih
    · by_cases hp : p.1 = k2
      · rw [List.filter_cons_of_pos (by simp [hpk]),
            List.find?_cons_of_pos _ (by simp [hp]),
            List.find?_cons_of_pos _ (by simp [hp])]
      · rw [List.filter_cons_of_pos (by simp [hpk]),
            List.find?_cons_of_neg _ (by simp [hp]),
            List.find?_cons_of_neg _ (by simp [hp])]
        exact ih

theorem transaction_headers_content_length (resource : Resource) (n : Nat) :
    headersGet (transaction_headers resource n) "content-length"
      = some (HeaderValue.Single (toString n)) := by
  unfold transaction_headers
  cases resource.content_type_mime with
  | none => exact headersGet_insert_self _ _ _
  | some mime_type =>
    rw [headersGet_insert_of_ne _ _ _ _ (by decide)]
    exact headersGet_insert_self _ _ _

/-- No header whose lowercased name is in the skip list survives
`serve_headers`, whatever the header map and the validity predicates. -/
theorem serve_headers_no_skipped (nameValid valueValid : String → Bool) (hs : HttpHeaders)
    (k v : String) (hmem : (k, v) ∈ serve_headers nameValid valueValid hs) :
    serve_skip_header (lowerStr k) = false := by
  simp only [serve_headers, List.mem_flatMap] at hmem
  obtain ⟨kv, hkv, hm⟩ := hmem
  by_cases hskip : serve_skip_header (lowerStr kv.1) = true
  · rw [if_pos hskip] at hm
    simp at hm
  · have hskip2 : serve_skip_header (lowerStr kv.1) = false := by
      revert hskip
      cases serve_skip_header (lowerStr kv.1) <;> simp
    rw [if_neg (by simp [hskip2])] at hm
    by_cases hname : nameValid kv.1 = true
    · rw [if_pos hname] at hm
      obtain ⟨w, hw, hweq⟩ := List.mem_map.mp hm
      obtain ⟨rfl, -⟩ : kv.1 = k ∧ w = v := by
        constructor
        · exact congrArg Prod.fst hweq
        · exact congrArg Prod.snd hweq
      exact hskip2
    · rw [if_neg hname] at hm
      simp at hm

/-- Claim C3 (amended).  For every transaction built by
`convert_resource_to_transaction`, the response emitted by
`serve_transaction` carries none of the headers Transfer-Encoding,
Connection, Keep-Alive, Upgrade, TE, Trailer, Proxy-Connection,
Proxy-Authorization, Proxy-Authenticate, Host — and, contrary to the claim,
no Content-Length either (the skip list of `serve_transaction` includes
`content-length`, so the re-inserted header is dropped again at emission
time); the Content-Length entry stored on the transaction's header map does
equal the byte length of the final wire body (the concatenation of the
chunks). -/
theorem c3_header_sanitation (c : PlaybackCodecs) (fs : String → Option (List Nat))
    (resource : Resource) (inventory_dir : String) (tx : Transaction)
    (nameValid valueValid : String → Bool)
    (h : convert_resource_to_transaction c fs resource inventory_dir = .ok (some tx)) :
    (∀ k v, (k, v) ∈ (serve_transaction nameValid valueValid tx).headers →
        serve_skip_header (lowerStr k) = false) ∧
    headersGet (tx.raw_headers.getD []) "content-length"
      = some (HeaderValue.Single
          (toString ((tx.chunks.map (fun ch => ch.chunk)).flatten.length))) := by
  obtain ⟨content, processed_content, hload, hre, htx⟩ := convert_ok_some_inv _ _ _ _ _ h
  constructor
  · intro k v hmem
    cases he : tx.error_message with
    | some msg => simp [serve_transaction, he] at hmem
    | none =>
      simp only [serve_transaction, he] at hmem
      exact serve_headers_no_skipped _ _ _ _ _ hmem
  · subst htx
    simp only [Option.getD_some]
    rw [transaction_headers_content_length, create_chunks_flatten]

/-- Concrete resource for the C3 witness and counterexample: an inline UTF-8
body `"hello"` and one recorded header `x-test`. -/
def c3Res : Resource :=
  { method := "GET", url := "https://example.com/x", ttfb_ms := 0,
    download_end_ms := some 1, status_code := some 200,
    raw_headers := some [("x-test", HeaderValue.Single "1")],
    content_utf8 := some "hello" }

/-- The transaction `convert_resource_to_transaction` builds from `c3Res`
(5-byte body, one chunk, fallback close time 1 ms). -/
def c3Tx : Transaction :=
  { method := "GET", url := "https://example.com/x", ttfb := 0, status_code := some 200,
    error_message := none,
    raw_headers := some [("content-length", HeaderValue.Single "5"),
                         ("x-test", HeaderValue.Single "1")],
    chunks := [{ chunk := [104, 101, 108, 108, 111], target_time := 0 }],
    target_close_time := 1 }

/-- Witness for C3 (amended): the sanitation theorem applied to `c3Res`. -/
theorem c3_header_sanitation_witness :
    convert_resource_to_transaction asciiCodecs (fun _ => none) c3Res "inv"
        = .ok (some c3Tx) ∧
    headersGet (c3Tx.raw_headers.getD []) "content-length"
      = some (HeaderValue.Single
          (toString ((c3Tx.chunks.map (fun ch => ch.chunk)).flatten.length))) :=
  ⟨by rfl, (c3_header_sanitation asciiCodecs (fun _ => none) c3Res "inv" c3Tx
    (fun _ => true) (fun _ => true) (by rfl)).2⟩

/-- Counterexample to C3 as stated: the response served for the matched
transaction built from `c3Res` has headers `[("x-test", "1")]` only — the
Content-Length header (present on the transaction's header map with the
correct value 5) is dropped by `serve_transaction`'s skip list, so no
Content-Length header is present on the emitted response. -/
theorem c3_counterexample :
    convert_resource_to_transaction asciiCodecs (fun _ => none) c3Res "inv"
        = .ok (some c3Tx) ∧
    (serve_transaction (fun _ => true) (fun _ => true) c3Tx).headers = [("x-test", "1")] ∧
    ((serve_transaction (fun _ => true) (fun _ => true) c3Tx).headers.countP
        (fun kv => lowerStr kv.1 == "content-length")) = 0 :=
  ⟨by rfl, by rfl, by rfl⟩

/-- Claim C9.  For a resource with `minify = true` whose content file
exists, playback does not stream the stored bytes: the wire body (the
concatenation of the transaction's chunks) is the stored content passed
through `minify_content` (whitespace collapsed outside tags for
`text/html`; trimmed non-empty lines concatenated for `text/css`; trimmed
non-empty non-`//` lines concatenated for `application/javascript` and
`text/javascript`), then charset re-encoding, then re-compression. -/
theorem c9_minified_playback_body (c : PlaybackCodecs) (fs : String → Option (List Nat))
    (resource : Resource) (inventory_dir p : String) (content : List Nat) (tx : Transaction)
    (hmin : resource.minify = some true)
    (hfile : resource.content_file_path = some p)
    (hfs : fs (inventory_dir ++ "/" ++ p) = some content)
    (hconv : convert_resource_to_transaction c fs resource inventory_dir = .ok (some tx)) :
    ∃ reencoded,
      playback_reencoded_content c resource
          (minify_content c content resource.content_type_mime) = .ok reencoded ∧
      (tx.chunks.map (fun ch => ch.chunk)).flatten
        = playback_final_content c resource reencoded := by
  obtain ⟨content2, processed_content, hload, hre, htx⟩ := convert_ok_some_inv _ _ _ _ _ hconv
  have hload2 : load_transaction_content c fs resource inventory_dir = .ok (some content) := by
    simp [load_transaction_content, hfile, hfs]
  rw [hload2] at hload
  obtain rfl : content = content2 := Option.some.inj (Except.ok.inj hload)
  have hproc : playback_processed_content c resource content
      = minify_content c content resource.content_type_mime := by
    simp [playback_processed_content, hmin]
  rw [hproc] at hre
  refine ⟨processed_content, hre, ?_⟩
  subst htx
  exact create_chunks_flatten _ _

/-- A minified one-line stylesheet stored beautified on disk, for the C9
witness. -/
def c9Css : String := "a \x7b\n color: red;\n\x7d\n"

/-- Concrete resource for the C9 witness: a `text/css` resource recorded as
minified. -/
def c9Res : Resource :=
  { method := "GET", url := "https://example.com/s.css", ttfb_ms := 0,
    download_end_ms := some 1, status_code := some 200,
    content_type_mime := some "text/css",
    content_file_path := some "contents/get/https/example.com/s.css", minify := some true }

/-- File tree of the C9 witness: one stored content file. -/
def c9fs : String → Option (List Nat) :=
  fun q =>
    if q = "inv/contents/get/https/example.com/s.css" then some (c9Css.data.map Char.toNat)
    else none

/-- The transaction `convert_resource_to_transaction` builds from `c9Res`:
its single chunk is the minified stylesheet, not the stored bytes. -/
def c9Tx : Transaction :=
  { method := "GET", url := "https://example.com/s.css", ttfb := 0, status_code := some 200,
    error_message := none,
    raw_headers := some [("content-type", HeaderValue.Single "text/css"),
                         ("content-length", HeaderValue.Single "15")],
    chunks := [{ chunk := "a \x7bcolor: red;\x7d".data.map Char.toNat, target_time := 0 }],
    target_close_time := 1 }

/-- Witness for C9: the minified-body theorem applied to the stored
stylesheet of `c9Res`. -/
theorem c9_minified_playback_body_witness :
    (c9Res.minify = some true ∧
     convert_resource_to_transaction asciiCodecs c9fs c9Res "inv" = .ok (some c9Tx)) ∧
    ∃ reencoded,
      playback_reencoded_content asciiCodecs c9Res
          (minify_content asciiCodecs (c9Css.data.map Char.toNat) c9Res.content_type_mime)
        = .ok reencoded ∧
      (c9Tx.chunks.map (fun ch => ch.chunk)).flatten
        = playback_final_content asciiCodecs c9Res reencoded :=
  ⟨⟨rfl, by rfl⟩,
   c9_minified_playback_body asciiCodecs c9fs c9Res "inv"
     "contents/get/https/example.com/s.css" (c9Css.data.map Char.toNat) c9Tx rfl rfl
     (by rfl) (by rfl)⟩

/-- A resource has no content source: no resolvable content file, no inline
base64, no inline UTF-8. -/
def NoContentSource (fs : String → Option (List Nat)) (inventory_dir : String)
    (r : Resource) : Prop :=
  (∀ p, r.content_file_path = some p → fs (inventory_dir ++ "/" ++ p) = none) ∧
  r.content_base64 = none ∧ r.content_utf8 = none

/-- A resource without any content source converts to no transaction. -/
theorem convert_no_content (c : PlaybackCodecs) (fs : String → Option (List Nat))
    (r : Resource) (inventory_dir : String) (h : NoContentSource fs inventory_dir r) :
    convert_resource_to_transaction c fs r inventory_dir = .ok none := by
  obtain ⟨h1, h2, h3⟩ := h
  have hload : load_transaction_content c fs r inventory_dir = .ok none := by
    cases hf : r.content_file_path with
    | some p => simp [load_transaction_content, hf, h1 p hf, h2, h3]
    | none => simp [load_transaction_content, hf, h2, h3]
  simp [convert_resource_to_transaction, hload]

/-- Claim C10.  Resources without any content source — no `contentFilePath`
resolving to an existing file, no `contentBase64`, no `contentUtf8` —
produce no transactions at all (even when they carry a `statusCode` and an
`errorMessage`), and a playback request against the resulting empty
transaction list is answered with status 404. -/
theorem c10_no_content_resources_404 (c : PlaybackCodecs) (fs : String → Option (List Nat))
    (inventory_dir : String) (inv : Inventory)
    (h : ∀ r ∈ inv.resources, NoContentSource fs inventory_dir r)
    (parseUri : String → Option PUri) (nameValid valueValid : String → Bool)
    (req : PlaybackRequest) :
    convert_resources_to_transactions c fs inventory_dir inv.resources = .ok [] ∧
    (handle_playback_request parseUri nameValid valueValid req []).status = 404 := by
  constructor
  · have haux : ∀ rs : List Resource, (∀ r ∈ rs, NoContentSource fs inventory_dir r) →
        convert_resources_to_transactions c fs inventory_dir rs = .ok [] := by
      intro rs
      induction rs with
      | nil => intro _; rfl
      | cons r rest ih =>
        intro hrs
        have h1 := convert_no_content c fs r inventory_dir (hrs r (List.mem_cons_self _ _))
        simp only [convert_resources_to_transactions, h1]
        exact ih (fun x hx => hrs x (List.mem_cons_of_mem _ hx))
    exact haux _ h
  · rfl

/-- Concrete resource for the C10 witness: status code and error message are
present, but its content file does not exist and it has no inline body. -/
def c10Res : Resource :=
  { method := "GET", url := "https://example.com/gone", ttfb_ms := 0,
    status_code := some 200, error_message := some "upstream error",
    content_file_path := some "contents/get/https/example.com/gone" }

/-- Inventory of the C10 witness. -/
def c10Inv : Inventory := { resources := [c10Res] }

/-- Witness for C10: the 404 theorem applied to an inventory holding only
`c10Res`. -/
theorem c10_no_content_resources_404_witness :
    convert_resources_to_transactions asciiCodecs (fun _ => none) "inv" c10Inv.resources
        = .ok [] ∧
    (handle_playback_request (fun _ => none) (fun _ => true) (fun _ => true)
        { method := "GET", path := "/gone", query := none, host := none } []).status = 404 :=
  c10_no_content_resources_404 asciiCodecs (fun _ => none) "inv" c10Inv
    (by
      intro r hr
      rcases List.mem_singleton.mp hr with rfl
      exact ⟨fun p _ => rfl, rfl, rfl⟩)
    (fun _ => none) (fun _ => true) (fun _ => true)
    { method := "GET", path := "/gone", query := none, host := none }

/-- The Boolean match of `handle_playback_request` holds exactly when:
the method is equal, the transaction URL parses, path and query are equal,
and the authorities are equal whenever both sides carry one. -/
theorem tx_matches_eq_true_iff (parseUri : String → Option PUri) (req : PlaybackRequest)
    (t : Transaction) :
    tx_matches parseUri req t = true ↔
      (t.method = req.method ∧ ∃ uri, parseUri t.url = some uri ∧ uri.path = req.path ∧
        uri.query = req.query ∧
        ∀ a b, req.host = some a → uri.authority = some b → a = b) := by
  unfold tx_matches
  by_cases hm : t.method = req.method
  · rw [if_neg (by simp [hm])]
    cases hp : parseUri t.url with
    | none => simp [hm]
    | some uri =>
      simp only [Bool.and_eq_true, beq_iff_eq, hm, true_and, Option.some.injEq]
      constructor
      · rintro ⟨⟨hhost, hpath⟩, hquery⟩
        refine ⟨uri, rfl, hpath, hquery, ?_⟩
        intro a b ha hb
        rw [ha, hb] at hhost
        simpa using hhost
      · rintro ⟨uri2, rfl, hpath, hquery, hhost⟩
        refine ⟨⟨?_, hpath⟩, hquery⟩
        cases hrh : req.host with
        | none => simp
        | some a =>
          cases hua : uri.authority with
          | none => simp
          | some b => simpa using hhost a b hrh hua
  · rw [if_pos (by simp [hm])]
    constructor
    · intro hfalse
      exact absurd hfalse (by simp)
    · rintro ⟨hm2, -⟩
      exact absurd hm2 hm

/-- Claim C7.  The transaction served for a playback request is the first
transaction in inventory order whose method equals the request's, whose
parsed URL's path and query equal the request's, and whose authority equals
the request's whenever both the request and the transaction URL carry one
(when either side lacks an authority, matching falls back to method, path
and query alone). -/
theorem c7_first_match_served (parseUri : String → Option PUri)
    (nameValid valueValid : String → Bool) (req : PlaybackRequest)
    (txs : List Transaction) (t : Transaction)
    (hfind : txs.find? (tx_matches parseUri req) = some t) :
    handle_playback_request parseUri nameValid valueValid req txs
        = serve_transaction nameValid valueValid t ∧
    ∃ i, txs.get? i = some t ∧
      (t.method = req.method ∧ ∃ uri, parseUri t.url = some uri ∧ uri.path = req.path ∧
        uri.query = req.query ∧
        ∀ a b, req.host = some a → uri.authority = some b → a = b) ∧
      (∀ j u, j < i → txs.get? j = some u →
        ¬ (u.method = req.method ∧ ∃ uri, parseUri u.url = some uri ∧
            uri.path = req.path ∧ uri.query = req.query ∧
            ∀ a b, req.host = some a → uri.authority = some b → a = b)) := by
  constructor
  · unfold handle_playback_request
    rw [hfind]
  · obtain ⟨hpt, as, bs, hsplit, hprev⟩ := List.find?_eq_some.mp hfind
    refine ⟨as.length, ?_, (tx_matches_eq_true_iff parseUri req t).mp hpt, ?_⟩
    · rw [hsplit, List.get?_append_right (le_refl as.length)]
      simp
    · intro j u hj hu hclaim
      have hmem : u ∈ as := by
        rw [hsplit, List.get?_append (by omega)] at hu
        exact List.get?_mem hu
      have := hprev u hmem
      rw [(tx_matches_eq_true_iff parseUri req u).mpr hclaim] at this
      simp at this

/-- Transactions for the C7 witness: the first does not match (wrong path),
the second does. -/
def c7Tx1 : Transaction :=
  { method := "GET", url := "https://example.com/other", ttfb := 0, status_code := some 200,
    error_message := none, raw_headers := none, chunks := [], target_close_time := 0 }

/-- The matching transaction of the C7 witness. -/
def c7Tx2 : Transaction :=
  { method := "GET", url := "https://example.com/a", ttfb := 0, status_code := some 200,
    error_message := none, raw_headers := none, chunks := [], target_close_time := 0 }

/-- URL parser of the C7 witness, mapping the two transaction URLs to their
components. -/
def c7Parse : String → Option PUri :=
  fun s =>
    if s = "https://example.com/other" then
      some { path := "/other", query := none, authority := some "example.com" }
    else if s = "https://example.com/a" then
      some { path := "/a", query := none, authority := some "example.com" }
    else none

/-- Request of the C7 witness. -/
def c7Req : PlaybackRequest :=
  { method := "GET", path := "/a", query := none, host := some "example.com" }

/-- Witness for C7: the first-match theorem applied to a two-transaction
list whose second entry is the match. -/
theorem c7_first_match_served_witness :
    ([c7Tx1, c7Tx2].find? (tx_matches c7Parse c7Req) = some c7Tx2) ∧
    handle_playback_request c7Parse (fun _ => true) (fun _ => true) c7Req [c7Tx1, c7Tx2]
        = serve_transaction (fun _ => true) (fun _ => true) c7Tx2 :=
  ⟨by rfl,
   (c7_first_match_served c7Parse (fun _ => true) (fun _ => true) c7Req [c7Tx1, c7Tx2] c7Tx2
     (by rfl)).1⟩

/-! ## Recording pipeline (`src/recording/processor.rs`,
`src/recording/hudsucker_handler.rs`) -/

/-- External decompressors of the recording pipeline (flate2, brotli):
parameters of the embedding; `none` models a decompression error. -/
structure RecordingCodecs where
  gzipDecompress : List Nat → Option (List Nat)
  deflateDecompress : List Nat → Option (List Nat)
  brotliDecompress : List Nat → Option (List Nat)

/-- `decompress_body` from `src/recording/processor.rs`: gzip, deflate and
brotli are decompressed, everything else (including no encoding, identity
and compress) passes the body through. -/
def decompress_body (d : RecordingCodecs) (body : List Nat)
    (encoding : Option ContentEncodingType) : Option (List Nat) :=
  match encoding with
  | some ContentEncodingType.Gzip => d.gzipDecompress body
  | some ContentEncodingType.Deflate => d.deflateDecompress body
  | some ContentEncodingType.Br => d.brotliDecompress body
  | _ => some body

/-- The `mbps` computation at the end of `process_response_body`
(`src/recording/processor.rs`, lines 57–69): executed only when
`download_end_ms` is present and exceeds `ttfb_ms`;
`seconds = download_time_ms / 1000.0` and the stored value is
`(body_size / seconds) / (1024.0 * 1024.0)` with `body_size` the
*decompressed* body length.  `f64` is modelled by `Rat`; `none` means the
`mbps` field is left unset. -/
def computed_mbps (decompressed_len : Nat) (r : Resource) : Option Rat :=
  match r.download_end_ms with
  | some download_end_ms =>
    if r.ttfb_ms < download_end_ms then
      let download_time_ms := download_end_ms - r.ttfb_ms
      let seconds : Rat := (download_time_ms : Rat) / 1000
      if 0 < seconds then some (((decompressed_len : Rat) / seconds) / (1024 * 1024))
      else none
    else none
  | none => none

/-- The `mbps` value `process_response_body` stores on the resource:
decompress the wire body, then apply the timing formula to the decompressed
length.  `none` models both a decompression error (the function returns
`Err` before reaching the computation) and the guards leaving the field
unset. -/
def process_response_body_mbps (d : RecordingCodecs) (r : Resource) (body : List Nat) :
    Option Rat :=
  match decompress_body d body r.content_encoding with
  | some decompressed_body => computed_mbps decompressed_body.length r
  | none => none

/-- The mbps value exactly as claim C5 states it (a second definition
following the claim's words, for comparison with the code's):
`8 · bodyBytes / (downloadEndMs − ttfbMs)` scaled to megabits per second,
with `bodyBytes` the *compressed* wire-body byte count. -/
def spec_claimed_mbps (compressed_len ttfb_ms download_end_ms : Nat) : Rat :=
  (8 * (compressed_len : Rat) * 1000) / (((download_end_ms - ttfb_ms : Nat) : Rat) * 1000000)

/-- Claim C5 (amended).  When the body was captured and
`downloadEndMs > ttfbMs`, the persisted `mbps` equals
`decompressedBytes · 1000 / ((downloadEndMs − ttfbMs) · 2^20)` — the
*decompressed* body length in *mebibytes per second*, not
`8 · compressedBytes / Δt` in megabits per second. -/
theorem c5_mbps_value (d : RecordingCodecs) (r : Resource) (body decompressed : List Nat)
    (e : Nat) (hdec : decompress_body d body r.content_encoding = some decompressed)
    (hend : r.download_end_ms = some e) (hlt : r.ttfb_ms < e) :
    process_response_body_mbps d r body
      = some ((decompressed.length : Rat) * 1000 / (((e - r.ttfb_ms : Nat) : Rat) * 1048576)) := by
  have hpos : (0 : Nat) < e - r.ttfb_ms := by omega
  have hposr : (0 : Rat) < ((e - r.ttfb_ms : Nat) : Rat) := by
    exact_mod_cast hpos
  simp only [process_response_body_mbps, hdec, computed_mbps, hend, if_pos hlt]
  rw [if_pos (by positivity : (0 : Rat) < ((e - r.ttfb_ms : Nat) : Rat) / 1000)]
  congr 1
  rw [div_div_eq_mul_div, div_div]
  norm_num

/-- Concrete resource for the C5 witness: no content encoding, 3-byte body,
transfer window of 2 ms. -/
def c5Res : Resource :=
  { method := "GET", url := "https://example.com/b", ttfb_ms := 0,
    download_end_ms := some 2 }

/-- Identity decompressors for the C5 witness. -/
def c5Codecs : RecordingCodecs :=
  { gzipDecompress := some, deflateDecompress := some, brotliDecompress := some }

/-- Witness for C5 (amended): a 3-byte body over 2 ms yields
`mbps = 3·1000/(2·2^20) = 375/262144`. -/
theorem c5_mbps_value_witness :
    (c5Res.download_end_ms = some 2 ∧ c5Res.ttfb_ms < 2) ∧
    process_response_body_mbps c5Codecs c5Res [0, 0, 0] = some (375 / 262144 : Rat) := by
  refine ⟨⟨rfl, by norm_num [c5Res]⟩, ?_⟩
  have h := c5_mbps_value c5Codecs c5Res [0, 0, 0] [0, 0, 0] 2 rfl rfl
    (by norm_num [c5Res])
  rw [h]
  norm_num [c5Res]

/-- Counterexample to C5 as stated: for a 1000-byte identity-encoded body
recorded over 1 ms, the code stores
`(1000 / (1/1000)) / 2^20 = 15625/16384 ≈ 0.95`, while the claim's formula
gives `8·1000·1000 / (1·10^6) = 8` megabits per second; the two differ. -/
theorem c5_counterexample :
    process_response_body_mbps c5Codecs
        { method := "GET", url := "https://example.com/b", ttfb_ms := 0,
          download_end_ms := some 1 } (List.replicate 1000 0)
      = some (15625 / 16384 : Rat) ∧
    spec_claimed_mbps 1000 0 1 = 8 ∧
    (15625 / 16384 : Rat) ≠ 8 := by
  refine ⟨?_, by norm_num [spec_claimed_mbps], by norm_num⟩
  have h := c5_mbps_value c5Codecs
    { method := "GET", url := "https://example.com/b", ttfb_ms := 0,
      download_end_ms := some 1 } (List.replicate 1000 0) (List.replicate 1000 0) 1
    rfl rfl (by norm_num)
  rw [h, List.length_replicate]
  norm_num

/-- One step of the header-collection loop of `handle_response`
(`src/recording/hudsucker_handler.rs`, lines 217–241):
`HashMap::entry(name).and_modify(append to Multiple).or_insert(Single)`. -/
def insert_response_header (hs : HttpHeaders) (name value : String) : HttpHeaders :=
  if headersHasKey hs name then
    hs.map (fun p =>
      if p.1 == name then
        (p.1, match p.2 with
          | HeaderValue.Single first => HeaderValue.Multiple [first, value]
          | HeaderValue.Multiple values => HeaderValue.Multiple (values ++ [value]))
      else p)
  else hs ++ [(name, HeaderValue.Single value)]

/-- The `rawHeaders` map `handle_response` persists on the recorded
resource: every response header whose value converts to a string
(`HeaderValue::to_str`, modelled by `valueOk`) is recorded, repeated names
coalescing into `Multiple`.  No hop-by-hop filtering is performed. -/
def collect_response_headers (valueOk : String → Bool)
    (headers : List (String × String)) : HttpHeaders :=
  headers.foldl (fun acc kv =>
    if valueOk kv.2 then insert_response_header acc kv.1 kv.2 else acc) []

theorem headersHasKey_map_fst_preserving (f : String × HeaderValue → String × HeaderValue)
    (hf : ∀ p, (f p).1 = p.1) (acc : HttpHeaders) (k : String) :
    headersHasKey (acc.map f) k = headersHasKey acc k := by
  induction acc with
  | nil => rfl
  | cons p rest ih =>
    simp only [List.map_cons, headersHasKey] at ih ⊢
    by_cases hp : p.1 = k
    · rw [List.find?_cons_of_pos _ (by simp [hf, hp]),
          List.find?_cons_of_pos _ (by simp [hp])]
      rfl
    · rw [List.find?_cons_of_neg _ (by simp [hf, hp]),
          List.find?_cons_of_neg _ (by simp [hp])]
      exact ih

theorem headersHasKey_insert_response (acc : HttpHeaders) (n v k : String) :
    headersHasKey (insert_response_header acc n v) k
      = (headersHasKey acc k || n == k) := by
  unfold insert_response_header
  by_cases h : headersHasKey acc n = true
  · rw [if_pos h]
    rw [headersHasKey_map_fst_preserving _ (by
      intro p
      by_cases hpn : p.1 = n <;> simp [hpn])]
    rcases eq_or_ne n k with rfl | hnk
    · have : headersHasKey acc n = true := h
      simp [this]
    · simp [hnk]
  · rw [if_neg h]
    simp only [headersHasKey, List.find?_append]
    cases hfind : acc.find? (fun p => p.1 == k) with
    | some p => simp [headersHasKey, hfind]
    | none =>
      simp only [Option.none_or]
      by_cases hnk : n = k
      · rw [List.find?_cons_of_pos _ (by simp [hnk])]
        simp [headersHasKey, hfind, hnk]
      · rw [List.find?_cons_of_neg _ (by simp [hnk])]
        simp [headersHasKey, hfind, hnk]

theorem collect_response_headers_go (valueOk : String → Bool)
    (headers : List (String × String)) :
    ∀ acc : HttpHeaders, ∀ k : String,
      headersHasKey (headers.foldl (fun acc kv =>
          if valueOk kv.2 then insert_response_header acc kv.1 kv.2 else acc) acc) k = true
        ↔ (headersHasKey acc k = true ∨ ∃ v, (k, v) ∈ headers ∧ valueOk v = true) := by
  induction headers with
  | nil => intro acc k; simp
  | cons kv rest ih =>
    intro acc k
    simp only [List.foldl_cons]
    by_cases hv : valueOk kv.2 = true
    · rw [if_pos hv, ih]
      rw [headersHasKey_insert_response]
      constructor
      · rintro (hacc | hrest)
        · rcases Bool.or_eq_true_iff.mp hacc with hacc | hkk
          · exact Or.inl hacc
          · refine Or.inr ⟨kv.2, ?_, hv⟩
            have : kv.1 = k := by simpa using hkk
            rw [← this]
            exact List.mem_cons_self _ _
        · obtain ⟨v, hvmem, hvok⟩ := hrest
          exact Or.inr ⟨v, List.mem_cons_of_mem _ hvmem, hvok⟩
      · rintro (hacc | ⟨v, hvmem, hvok⟩)
        · exact Or.inl (by simp [hacc])
        · rcases List.mem_cons.mp hvmem with heq | hvmem2
          · refine Or.inl ?_
            have : kv.1 = k := (congrArg Prod.fst heq).symm
            simp [this]
          · exact Or.inr ⟨v, hvmem2, hvok⟩
    · rw [if_neg hv, ih]
      constructor
      · rintro (hacc | ⟨v, hvmem, hvok⟩)
        · exact Or.inl hacc
        · exact Or.inr ⟨v, List.mem_cons_of_mem _ hvmem, hvok⟩
      · rintro (hacc | ⟨v, hvmem, hvok⟩)
        · exact Or.inl hacc
        · rcases List.mem_cons.mp hvmem with heq | hvmem2
          · exfalso
            have : kv.2 = v := (congrArg Prod.snd heq).symm
            rw [this] at hv
            exact hv hvok
          · exact Or.inr ⟨v, hvmem2, hvok⟩

/-- Claim C8 (amended).  The recorder performs no hop-by-hop filtering when
persisting `rawHeaders`: the persisted map contains exactly the names of
the response headers the proxy delivered whose values convert to strings —
in particular a `Connection`, `Transfer-Encoding` or `Host` header present
on the response is persisted. -/
theorem c8_raw_headers_unfiltered (valueOk : String → Bool)
    (headers : List (String × String)) (k : String) :
    headersHasKey (collect_response_headers valueOk headers) k = true
      ↔ ∃ v, (k, v) ∈ headers ∧ valueOk v = true := by
  unfold collect_response_headers
  rw [collect_response_headers_go]
  simp [headersHasKey]

/-- Witness for C8 (amended): a response with a `connection` and a
`content-type` header persists both names. -/
theorem c8_raw_headers_unfiltered_witness :
    (∃ v, ("connection", v) ∈
        [("connection", "keep-alive"), ("content-type", "text/html")] ∧
        (fun (_ : String) => true) v = true) ∧
    headersHasKey (collect_response_headers (fun _ => true)
        [("connection", "keep-alive"), ("content-type", "text/html")]) "connection" = true :=
  ⟨⟨"keep-alive", by decide, rfl⟩,
   (c8_raw_headers_unfiltered (fun _ => true)
     [("connection", "keep-alive"), ("content-type", "text/html")] "connection").mpr
     ⟨"keep-alive", by decide, rfl⟩⟩

/-- Counterexample to C8 as stated: the map persisted for a response
carrying `Connection: keep-alive` contains the hop-by-hop header
`connection` verbatim. -/
theorem c8_counterexample :
    collect_response_headers (fun _ => true)
        [("connection", "keep-alive"), ("content-type", "text/html")]
      = [("connection", HeaderValue.Single "keep-alive"),
         ("content-type", HeaderValue.Single "text/html")] ∧
    headersHasKey [("connection", HeaderValue.Single "keep-alive"),
         ("content-type", HeaderValue.Single "text/html")] "connection" = true :=
  ⟨by rfl, by rfl⟩

/-! ## Charset-declaration rewriting (`src/recording/processor.rs`)

`remove_charset_declarations` applies four `Regex::replace_all` passes; the
regex literals of the source are embedded as explicit scanner functions.
Quantifier/backtracking ambiguity is resolved as the regex engine resolves
it on attribute values in their quoted or unquoted on-page forms: class
runs are maximal, and the `[^"'>]*charset=` split takes the last feasible
`charset=` occurrence. -/

/-- Consume a literal case-insensitively (regex `(?i)` literal). -/
def eatLitCI : List Char → List Char → Option (List Char)
  | [], s => some s
  | _ :: _, [] => none
  | c :: cs, x :: xs => if x.toLower = c.toLower then eatLitCI cs xs else none

/-- Consume a literal exactly (case-sensitive regex literal). -/
def eatLit : List Char → List Char → Option (List Char)
  | [], s => some s
  | _ :: _, [] => none
  | c :: cs, x :: xs => if x = c then eatLit cs xs else none

/-- Consume `\s*`. -/
def eatWsStar (s : List Char) : List Char := s.dropWhile isWsChar

/-- Consume `\s+`. -/
def eatWsPlus : List Char → Option (List Char)
  | x :: xs => if isWsChar x then some (xs.dropWhile isWsChar) else none
  | [] => none

/-- Consume one optional character satisfying `p` (regex `[...]?`). -/
def eatOpt (p : Char → Bool) : List Char → List Char
  | x :: xs => if p x then xs else x :: xs
  | [] => []

/-- Consume one mandatory character `c`. -/
def eatChar (c : Char) : List Char → Option (List Char)
  | x :: xs => if x = c then some xs else none
  | [] => none

/-- Consume one mandatory character satisfying `p` (regex `[...]`). -/
def eatIf (p : Char → Bool) : List Char → Option (List Char)
  | x :: xs => if p x then some xs else none
  | [] => none

/-- Consume a non-empty maximal run of characters satisfying `p`
(greedy regex `[...]+`). -/
def eatClassPlus (p : Char → Bool) : List Char → Option (List Char)
  | x :: xs => if p x then some (xs.dropWhile p) else none
  | [] => none

/-- A single or double quote (regex `["']`). -/
def isQuote (c : Char) : Bool := c = '"' || c = '\x27'

/-- A character allowed inside an attribute value (regex class `[^"'>]`). -/
def notAttrEnd (c : Char) : Bool := !(c = '"' || c = '\x27' || c = '>')

/-- Matcher for HTML pattern 1 of `remove_charset_declarations`
(`processor.rs`, line 182): `(?i)<meta\s+charset\s*=\s*["']?[^"'>]+["']?\s*/?>`.
Returns the input remainder after the match. -/
def matchMetaCharset (s : List Char) : Option (List Char) := do
  let s ← eatLitCI "<meta".data s
  let s ← eatWsPlus s
  let s ← eatLitCI "charset".data s
  let s := eatWsStar s
  let s ← eatChar '=' s
  let s := eatWsStar s
  let s := eatOpt isQuote s
  let s ← eatClassPlus notAttrEnd s
  let s := eatOpt isQuote s
  let s := eatWsStar s
  let s := eatOpt (fun c => c = '/') s
  eatChar '>' s

/-- The regex fragment `[^"'>]*charset=[^"'>]+` of HTML patterns 2 and 3:
consume the maximal `[^"'>]` run provided it contains a (last-feasible)
case-insensitive `charset=` followed by at least one more run character;
returns the remainder after the run. -/
def eatCharsetRun (s : List Char) : Option (List Char) :=
  let run := s.takeWhile notAttrEnd
  let rest := s.drop run.length
  let feasible := (List.range run.length).filter (fun i =>
    "charset=".data.isPrefixOf ((run.drop i).map Char.toLower) && i + 8 < run.length)
  match feasible.getLast? with
  | some _ => some rest
  | none => none

/-- Matcher for HTML pattern 2 (`processor.rs`, line 186):
`(?i)<meta\s+http-equiv\s*=\s*["']?Content-Type["']?\s+content\s*=\s*["']?[^"'>]*charset=[^"'>]+["']?\s*/?>`. -/
def matchMetaHttpEquiv (s : List Char) : Option (List Char) := do
  let s ← eatLitCI "<meta".data s
  let s ← eatWsPlus s
  let s ← eatLitCI "http-equiv".data s
  let s := eatWsStar s
  let s ← eatChar '=' s
  let s := eatWsStar s
  let s := eatOpt isQuote s
  let s ← eatLitCI "Content-Type".data s
  let s := eatOpt isQuote s
  let s ← eatWsPlus s
  let s ← eatLitCI "content".data s
  let s := eatWsStar s
  let s ← eatChar '=' s
  let s := eatWsStar s
  let s := eatOpt isQuote s
  let s ← eatCharsetRun s
  let s := eatOpt isQuote s
  let s := eatWsStar s
  let s := eatOpt (fun c => c = '/') s
  eatChar '>' s

/-- Matcher for HTML pattern 3 (`processor.rs`, line 190), the reversed
attribute order:
`(?i)<meta\s+content\s*=\s*["']?[^"'>]*charset=[^"'>]+["']?\s+http-equiv\s*=\s*["']?Content-Type["']?\s*/?>`. -/
def matchMetaReverse (s : List Char) : Option (List Char) := do
  let s ← eatLitCI "<meta".data s
  let s ← eatWsPlus s
  let s ← eatLitCI "content".data s
  let s := eatWsStar s
  let s ← eatChar '=' s
  let s := eatWsStar s
  let s := eatOpt isQuote s
  let s ← eatCharsetRun s
  let s := eatOpt isQuote s
  let s ← eatWsPlus s
  let s ← eatLitCI "http-equiv".data s
  let s := eatWsStar s
  let s ← eatChar '=' s
  let s := eatWsStar s
  let s := eatOpt isQuote s
  let s ← eatLitCI "Content-Type".data s
  let s := eatOpt isQuote s
  let s := eatWsStar s
  let s := eatOpt (fun c => c = '/') s
  eatChar '>' s

/-- Matcher for the CSS pattern (`processor.rs`, line 197):
`@charset\s+["'][^"']+["']\s*;\s*` (case-sensitive; the trailing
whitespace is part of the match and is removed with it). -/
def matchCssCharset (s : List Char) : Option (List Char) := do
  let s ← eatLit "@charset".data s
  let s ← eatWsPlus s
  let s ← eatIf isQuote s
  let s ← eatClassPlus (fun c => !isQuote c) s
  let s ← eatIf isQuote s
  let s := eatWsStar s
  let s ← eatChar ';' s
  pure (eatWsStar s)

/-- `Regex::replace_all`: scan left to right; at each position, if the
matcher succeeds (consuming at least one character), emit the replacement
and continue after the match, else emit the character and move on.  The
fuel is the input length, which bounds the number of steps. -/
def replaceAllGo (m : List Char → Option (List Char)) (repl : List Char) :
    Nat → List Char → List Char
  | 0, s => s
  | _ + 1, [] => []
  | fuel + 1, c :: rest =>
    match m (c :: rest) with
    | some remaining =>
      if remaining.length ≤ rest.length then repl ++ replaceAllGo m repl fuel remaining
      else c :: replaceAllGo m repl fuel rest
    | none => c :: replaceAllGo m repl fuel rest

/-- `Regex::replace_all` over a character list. -/
def replaceAll (m : List Char → Option (List Char)) (repl : List Char)
    (s : List Char) : List Char :=
  replaceAllGo m repl s.length s

/-- `remove_charset_declarations` from `src/recording/processor.rs`
(lines 177–202): for `text/html`, replace `<meta charset=…>` and both
`<meta http-equiv=…>` forms with their UTF-8 versions; for `text/css`,
delete `@charset "...";` declarations; all other MIME types are returned
unchanged. -/
def remove_charset_declarations (content : String) (mime_type : Option String) : String :=
  match mime_type with
  | some "text/html" =>
    let r1 := replaceAll matchMetaCharset "<meta charset=\"UTF-8\">".data content.data
    let r2 := replaceAll matchMetaHttpEquiv
      "<meta http-equiv=\"Content-Type\" content=\"text/html; charset=UTF-8\">".data r1
    let r3 := replaceAll matchMetaReverse
      "<meta content=\"text/html; charset=UTF-8\" http-equiv=\"Content-Type\">".data r2
    ofChars r3
  | some "text/css" => ofChars (replaceAll matchCssCharset [] content.data)
  | _ => content

/-- The `Some("text/css")` branch of `beautify_content`
(`src/recording/processor.rs`, lines 216–222):
`replace('\x7b', "\x7b\n").replace('\x7d', "\n\x7d\n").replace(';', ";\n")`. -/
def replaceCharStr (c : Char) (repl : String) (s : String) : String :=
  ofChars (s.data.flatMap (fun x => if x = c then repl.data else [x]))

/-- CSS beautification from `beautify_content`. -/
def beautify_css (content : String) : String :=
  replaceCharStr ';' ";\n" (replaceCharStr '\x7d' "\n\x7d\n"
    (replaceCharStr '\x7b' "\x7b\n" content))

/-- `beautify_content` from `src/recording/processor.rs`: HTML and
JavaScript use external libraries (prettyish-html, prettify-js), modelled
by the parameters `beautifyHtml` and `beautifyJs`; CSS is beautified by the
in-source replacement rules. -/
def beautify_content (beautifyHtml beautifyJs : String → String) (content : String)
    (mime_type : Option String) : String :=
  match mime_type with
  | some "text/html" => beautifyHtml content
  | some "application/javascript" | some "text/javascript" => beautifyJs content
  | some "text/css" => beautify_css content
  | _ => content

/-- Outcome of `RequestProcessor::process_text_resource`: the text written
to the content file, the `minify` flag, and the value stored in the
resource's charset field. -/
structure ProcessedText where
  persisted : String
  minify : Bool
  content_type_charset : String
deriving Repr, DecidableEq

/-- `process_text_resource` from `src/recording/processor.rs` (lines
103–137), the text pipeline of the recording proxy's live handler
(`hudsucker_handler.rs` calls `process_response_body`, which dispatches
here for text resources): decode to UTF-8 (`convert_to_utf8`, an
encoding_rs call modelled by `decode`), rewrite/remove charset
declarations, set the charset field to UTF-8, compare line counts against
the beautified form to set `minify`, and persist the (charset-rewritten)
decoded text — not the beautified text. -/
def process_text_resource (decode : Option String → List Nat → String)
    (beautifyHtml beautifyJs : String → String) (r : Resource) (body : List Nat) :
    ProcessedText :=
  let utf8_content := decode r.content_type_charset body
  let utf8_content := remove_charset_declarations utf8_content r.content_type_mime
  let original_lines := linesCount utf8_content
  let beautified := beautify_content beautifyHtml beautifyJs utf8_content r.content_type_mime
  let beautified_lines := linesCount beautified
  { persisted := utf8_content
    minify := decide (beautified_lines ≥ original_lines * 2)
    content_type_charset := "UTF-8" }

/-- ASCII instantiation of `convert_to_utf8` for the concrete evaluations:
the captured bodies used below are pure ASCII, on which every charset the
sources handle decodes bytes to the identical characters. -/
def asciiDecode : Option String → List Nat → String :=
  fun _ l => ofChars (l.map Char.ofNat)

/-- Captured HTML body of the C2 failing input (the same shape as the
repository's own `test_original_charset_preservation`). -/
def c2Html : String := "<html><head><meta charset=\"Shift_JIS\"><title>T</title></head></html>"

/-- Resource of the C2 failing input: a `text/html` body declared as
Shift_JIS. -/
def c2Res : Resource :=
  { method := "GET", url := "https://example.com/", content_type_mime := some "text/html",
    content_type_charset := some "Shift_JIS" }

/-- Captured CSS body of the C2 failing input's second half. -/
def c2Css : String := "@charset \"Shift_JIS\";\nbody \x7bcolor: red\x7d"

/-- Resource for the CSS half of the C2 failing input. -/
def c2CssRes : Resource :=
  { method := "GET", url := "https://example.com/s.css", content_type_mime := some "text/css",
    content_type_charset := some "Shift_JIS" }

/-- Claim C2 is right and the code is wrong (code bug).  The repository's
own test `test_original_charset_preservation` asserts that the persisted
text still contains the original `charset="Shift_JIS"` declaration, and the
spec says charset declarations are not rewritten on record — but the live
pipeline (`process_text_resource` calling `remove_charset_declarations`)
rewrites the HTML `<meta charset>` to UTF-8 and deletes the CSS `@charset`
declaration before persisting.  This theorem evaluates the embedded
pipeline at the failing inputs. -/
theorem c2_charset_rewritten_code_bug :
    (process_text_resource asciiDecode id id c2Res (c2Html.data.map Char.toNat)).persisted
        = "<html><head><meta charset=\"UTF-8\"><title>T</title></head></html>" ∧
    containsStr c2Html "charset=\"Shift_JIS\"" = true ∧
    containsStr (process_text_resource asciiDecode id id c2Res
        (c2Html.data.map Char.toNat)).persisted "charset=\"Shift_JIS\"" = false ∧
    (process_text_resource asciiDecode id id c2CssRes (c2Css.data.map Char.toNat)).persisted
        = "body \x7bcolor: red\x7d" ∧
    containsStr (process_text_resource asciiDecode id id c2CssRes
        (c2Css.data.map Char.toNat)).persisted "@charset" = false :=
  ⟨by rfl, by decide, by decide, by rfl, by decide⟩

/-- Minified stylesheet of the C4 failing input. -/
def c4Css : String := "body\x7bmargin:0;padding:0\x7d"

/-- Resource of the C4 failing input: a `text/css` capture. -/
def c4Res : Resource :=
  { method := "GET", url := "https://example.com/m.css", content_type_mime := some "text/css" }

/-- Claim C4 is right and the code is wrong (code bug).  The e2e content
test (`e2e/content`, `verify_beautified_content`) requires the persisted
content file of a minified resource to be the beautified text (≥ 2× the
lines), and the unused `BatchProcessor::process_text_resource` implements
exactly that — but the live recording path
(`RequestProcessor::process_text_resource`, called from the hudsucker
handler) persists the decoded text regardless of the `minify` flag.  At the
failing input the flag is correctly set to true (the beautified form has
4 ≥ 2·1 lines), yet the persisted bytes are the one-line decoded text, not
the beautified text. -/
theorem c4_beautified_not_persisted_code_bug :
    (process_text_resource asciiDecode id id c4Res (c4Css.data.map Char.toNat)).minify
        = true ∧
    (process_text_resource asciiDecode id id c4Res (c4Css.data.map Char.toNat)).persisted
        = c4Css ∧
    linesCount c4Css = 1 ∧
    beautify_content id id c4Css (some "text/css") = "body\x7b\nmargin:0;\npadding:0\n\x7d\n" ∧
    linesCount (beautify_content id id c4Css (some "text/css")) = 4 ∧
    beautify_content id id c4Css (some "text/css") ≠ c4Css :=
  ⟨by rfl, by rfl, by rfl, by rfl, by rfl, by decide⟩

/-! ## Content-file paths (`src/utils.rs`, `generate_file_path_from_url`) -/

/-- The components the `url` crate exposes of a parsed URL (scheme is
already lowercased by the parser; the serialized path and query are
ASCII). -/
structure ParsedUrl where
  scheme : String
  host : Option String
  path : String
  query : Option String
deriving Repr, DecidableEq

/-- Uppercase hexadecimal digit. -/
def hexDigitUpper (n : Nat) : Char :=
  if n < 10 then Char.ofNat (48 + n) else Char.ofNat (65 + (n - 10))

/-- The characters `urlencoding::encode` leaves unescaped:
`[A-Za-z0-9_.\-~]`. -/
def isUrlUnreserved (c : Char) : Bool :=
  (97 ≤ c.toNat && c.toNat ≤ 122) || (65 ≤ c.toNat && c.toNat ≤ 90) ||
  (48 ≤ c.toNat && c.toNat ≤ 57) || c = '-' || c = '.' || c = '_' || c = '~'

/-- UTF-8 bytes of one character. -/
def utf8BytesOfChar (c : Char) : List Nat :=
  let n := c.toNat
  if n < 128 then [n]
  else if n < 2048 then [192 + n / 64, 128 + n % 64]
  else if n < 65536 then [224 + n / 4096, 128 + (n / 64) % 64, 128 + n % 64]
  else [240 + n / 262144, 128 + (n / 4096) % 64, 128 + (n / 64) % 64, 128 + n % 64]

/-- `urlencoding::encode`: every byte outside the unreserved set becomes
`%XX` with uppercase hex. -/
def percentEncode (s : String) : String :=
  ofChars (s.data.flatMap (fun c =>
    if isUrlUnreserved c then [c]
    else (utf8BytesOfChar c).flatMap (fun b =>
      ['%', hexDigitUpper (b / 16), hexDigitUpper (b % 16)])))

/-- The query-suffix insertion of `generate_file_path_from_url`
(`src/utils.rs`, lines 54–64 and 74–86, identical in both branches):
split the last `/`-separated segment of `file_path` at its last dot
(`str::rfind`) and place `ins` between name and extension, or append `ins`
when the segment has no dot. -/
def insert_before_extension (file_path ins : String) : String :=
  match (splitChar '/' file_path).getLast? with
  | some last_segment =>
    match rfindIdx '.' last_segment.data with
    | some dot_pos =>
      let name := strTake last_segment dot_pos
      let ext := strDrop last_segment dot_pos
      let new_file_path := strTake file_path (strLen file_path - strLen last_segment)
      new_file_path ++ name ++ ins ++ ext
    | none => file_path ++ ins
  | none => file_path

/-- `generate_file_path_from_url` from `src/utils.rs`: `sha1hex` models the
sha1 crate (hex digest of a string's bytes). -/
def generate_file_path_from_url (sha1hex : String → String) (u : ParsedUrl)
    (method : String) : String :=
  let scheme := u.scheme
  let host := u.host.getD "localhost"
  let path := u.path
  let file_path := lowerStr method ++ "/" ++ scheme ++ "/" ++ host
  let path_segments := (splitChar '/' path).filter (fun s => !(s == ""))
  if path_segments.isEmpty then file_path ++ "/index.html"
  else
    let file_path := path_segments.foldl (fun fp seg => fp ++ "/" ++ seg) file_path
    let file_path := if endsWithChar path '/' then file_path ++ "/index.html" else file_path
    match u.query with
    | some query =>
      if !(query == "") then
        if strLen query ≤ 32 then
          insert_before_extension file_path ("~" ++ percentEncode query)
        else
          insert_before_extension file_path
            ("~" ++ percentEncode (strTake query 32) ++ ".~" ++ sha1hex (strDrop query 32))
      else file_path
    | none => file_path

/-- Join non-empty path segments with `/` (for stating the shape of the
generated paths). -/
def joinSegs : List String → String
  | [] => ""
  | [a] => a
  | a :: rest => a ++ "/" ++ joinSegs rest

theorem foldl_append_joinSegs (segs : List String) :
    ∀ X : String, segs ≠ [] →
      segs.foldl (fun fp seg => fp ++ "/" ++ seg) X = X ++ "/" ++ joinSegs segs := by
  induction segs with
  | nil => intro X h; exact absurd rfl h
  | cons a rest ih =>
    intro X _
    cases rest with
    | nil => simp [joinSegs]
    | cons b t =>
      have step : (a :: b :: t).foldl (fun fp seg => fp ++ "/" ++ seg) X
          = (b :: t).foldl (fun fp seg => fp ++ "/" ++ seg) (X ++ "/" ++ a) := rfl
      rw [step, ih (X ++ "/" ++ a) (by simp)]
      rw [show joinSegs (a :: b :: t) = a ++ "/" ++ joinSegs (b :: t) from rfl]
      simp [String.append_assoc]

/-- `rfindIdx` finds nothing exactly when the character does not occur. -/
theorem rfindIdx_eq_none_iff (c : Char) (l : List Char) :
    rfindIdx c l = none ↔ c ∉ l := by
  induction l with
  | nil => simp [rfindIdx]
  | cons x xs ih =>
    simp only [rfindIdx, List.mem_cons]
    cases h : rfindIdx c xs with
    | some j =>
      have hmem : c ∈ xs := by
        by_contra hc
        rw [ih.mpr hc] at h
        exact Option.noConfusion h
      simp [hmem]
    | none =>
      have hnot : c ∉ xs := ih.mp h
      by_cases hx : x = c
      · simp [hx]
      · have hcx : ¬ c = x := fun hc => hx hc.symm
        simp [hx, hcx, hnot]

/-- `rfindIdx` returns the index of the *last* occurrence. -/
theorem rfindIdx_eq_some (c : Char) (l : List Char) (i : Nat)
    (h : rfindIdx c l = some i) :
    i < l.length ∧ l.get? i = some c ∧ ∀ j, i < j → l.get? j ≠ some c := by
  induction l generalizing i with
  | nil => simp [rfindIdx] at h
  | cons x xs ih =>
    simp only [rfindIdx] at h
    cases hx : rfindIdx c xs with
    | some j =>
      rw [hx] at h
      obtain rfl : j + 1 = i := Option.some.inj h
      obtain ⟨hlt, hget, hafter⟩ := ih j hx
      refine ⟨by simpa using Nat.succ_lt_succ hlt, by simpa using hget, ?_⟩
      intro k hk
      cases k with
      | zero => omega
      | succ k2 =>
        simp only [List.get?_cons_succ]
        exact hafter k2 (by omega)
    | none =>
      rw [hx] at h
      by_cases hxc : x = c
      · rw [if_pos hxc] at h
        obtain rfl : (0 : Nat) = i := Option.some.inj h
        refine ⟨by simp, by simp [hxc], ?_⟩
        intro j hj
        cases j with
        | zero => omega
        | succ j2 =>
          simp only [List.get?_cons_succ]
          intro hmem
          have : c ∈ xs := by
            have := List.get?_mem hmem
            exact this
          exact (rfindIdx_eq_none_iff c xs).mp hx this
      · rw [if_neg hxc] at h
        exact Option.noConfusion h

/-- Claim C6 (amended).  The generated content path is
`<lowercased method>/<scheme>/<host>` followed by: just `/index.html` when
the URL path has no non-empty segment — in which case any query is
*ignored*, contrary to the claim; otherwise the non-empty path segments
joined by `/`, plus `/index.html` when the path ends in `/`, and a
non-empty query is appended before the extension of the last segment as
`~<percent-encoded query>` when it has ≤ 32 characters, or as
`~<percent-encoded first 32>.~<hex SHA-1 of the remainder>` when longer. -/
theorem c6_file_path_shape (sha1hex : String → String) (u : ParsedUrl) (method : String) :
    ((splitChar '/' u.path).filter (fun s => !(s == "")) = [] →
      generate_file_path_from_url sha1hex u method
        = lowerStr method ++ "/" ++ u.scheme ++ "/" ++ u.host.getD "localhost"
            ++ "/index.html") ∧
    (∀ segs, (splitChar '/' u.path).filter (fun s => !(s == "")) = segs → segs ≠ [] →
      (u.query = none ∨ u.query = some "") →
      generate_file_path_from_url sha1hex u method
        = (lowerStr method ++ "/" ++ u.scheme ++ "/" ++ u.host.getD "localhost" ++ "/"
            ++ joinSegs segs)
          ++ (if endsWithChar u.path '/' = true then "/index.html" else "")) ∧
    (∀ segs q, (splitChar '/' u.path).filter (fun s => !(s == "")) = segs → segs ≠ [] →
      u.query = some q → q ≠ "" → strLen q ≤ 32 →
      generate_file_path_from_url sha1hex u method
        = insert_before_extension
            ((lowerStr method ++ "/" ++ u.scheme ++ "/" ++ u.host.getD "localhost" ++ "/"
                ++ joinSegs segs)
              ++ (if endsWithChar u.path '/' = true then "/index.html" else ""))
            ("~" ++ percentEncode q)) ∧
    (∀ segs q, (splitChar '/' u.path).filter (fun s => !(s == "")) = segs → segs ≠ [] →
      u.query = some q → 32 < strLen q →
      generate_file_path_from_url sha1hex u method
        = insert_before_extension
            ((lowerStr method ++ "/" ++ u.scheme ++ "/" ++ u.host.getD "localhost" ++ "/"
                ++ joinSegs segs)
              ++ (if endsWithChar u.path '/' = true then "/index.html" else ""))
            ("~" ++ percentEncode (strTake q 32) ++ ".~" ++ sha1hex (strDrop q 32))) := by
  have hbase : ∀ segs, (splitChar '/' u.path).filter (fun s => !(s == "")) = segs →
      segs ≠ [] →
      (segs.foldl (fun fp seg => fp ++ "/" ++ seg)
          (lowerStr method ++ "/" ++ u.scheme ++ "/" ++ u.host.getD "localhost"))
        = lowerStr method ++ "/" ++ u.scheme ++ "/" ++ u.host.getD "localhost" ++ "/"
            ++ joinSegs segs := by
    intro segs hsegs hne
    rw [foldl_append_joinSegs segs _ hne]
  refine ⟨?_, ?_, ?_, ?_⟩
  · intro hsegs
    simp [generate_file_path_from_url, hsegs]
  · rintro segs hsegs hne (hq | hq) <;>
    · simp only [generate_file_path_from_url, hsegs,
        List.isEmpty_iff, if_neg hne, hq]
      rw [hbase segs hsegs hne]
      by_cases hend : endsWithChar u.path '/' = true <;> simp [hend]
  · intro segs q hsegs hne hq hqne hqlen
    simp only [generate_file_path_from_url, hsegs, List.isEmpty_iff, if_neg hne, hq]
    rw [hbase segs hsegs hne]
    have hqb : (q == "") = false := by simpa using hqne
    simp only [hqb, Bool.not_false, if_pos, if_pos hqlen]
    by_cases hend : endsWithChar u.path '/' = true <;> simp [hend]
  · intro segs q hsegs hne hq hqlen
    simp only [generate_file_path_from_url, hsegs, List.isEmpty_iff, if_neg hne, hq]
    rw [hbase segs hsegs hne]
    have hqne : q ≠ "" := by
      intro hq0
      rw [hq0] at hqlen
      simp [strLen] at hqlen
    have hqb : (q == "") = false := by simpa using hqne
    simp only [hqb, Bool.not_false, if_pos, if_neg (by omega : ¬ strLen q ≤ 32)]
    by_cases hend : endsWithChar u.path '/' = true <;> simp [hend]

/-- Parsed URL of the C6 witness: `http://example.com/a/b.html?x=1`. -/
def c6Url : ParsedUrl :=
  { scheme := "http", host := some "example.com", path := "/a/b.html", query := some "x=1" }

/-- Witness for C6 (amended): the short query `x=1` of `c6Url` is inserted
before the `.html` extension, percent-encoded. -/
theorem c6_file_path_shape_witness :
    (strLen "x=1" ≤ 32 ∧ ("x=1" : String) ≠ "") ∧
    generate_file_path_from_url (fun _ => "") c6Url "GET"
      = insert_before_extension
          (("get" ++ "/" ++ "http" ++ "/" ++ "example.com" ++ "/" ++ joinSegs ["a", "b.html"])
            ++ "")
          ("~" ++ percentEncode "x=1") ∧
    generate_file_path_from_url (fun _ => "") c6Url "GET"
      = "get/http/example.com/a/b~x%3D1.html" :=
  ⟨⟨by decide, by decide⟩,
   by
    have h := (c6_file_path_shape (fun _ => "") c6Url "GET").2.2.1 ["a", "b.html"] "x=1"
      (by decide) (by decide) rfl (by decide) (by decide)
    rw [h]
    rfl,
   by rfl⟩

/-- Counterexample to C6 as stated: for `GET http://example.com/?q=1` —
an empty path with a non-empty ≤ 32-character query — the code produces
`get/http/example.com/index.html` with the query dropped entirely (the
output contains no `~` and no encoded query), because the query-appending
code sits inside the non-empty-path-segments branch. -/
theorem c6_counterexample :
    generate_file_path_from_url (fun _ => "")
        { scheme := "http", host := some "example.com", path := "/", query := some "q=1" }
        "GET"
      = "get/http/example.com/index.html" ∧
    ("q=1" : String) ≠ "" ∧ strLen "q=1" ≤ 32 ∧
    ("get/http/example.com/index.html".data.contains '~') = false :=
  ⟨by rfl, by decide, by decide, by decide⟩

end HttpPlaybackProxy
